import Mathlib

/-!
# Verification of `SortXML.py`

A shallow embedding of the Sort-XML repository's single source file
(`src/SortXML.py`, version 3.0) together with theorems settling the frozen
claims about its specification.

Modelling conventions:
* Python's tree values (`str` | `dict` | `list`) become the inductive `Node`.
* Python dicts are ordered association lists (`List (String × Node)`);
  insertion adds at the end, updates keep the position (CPython dict order).
* Python's stable `sorted(· , key=…)` is modelled by the stable insertion
  sort `pySorted` over a boolean `≤` on the computed sort keys.
* Python string comparison is lexicographic on code points (`lexLe`);
  `str.lower()`, `str.strip()`, `str.replace` and friends are implemented
  over `List Char` (`pyLower`, `pyStrip`, `pyReplace`, …).
* `xml.etree.ElementTree` elements become the inductive `Element`.
-/

set_option maxRecDepth 100000

namespace SortXML

/-! ## Python runtime model: stable sort (`sorted` with a key function) -/

/-- Insert `a` into `l`, placing it before the first element `b` with
`le a b`.  This is the insertion step of a stable insertion sort. -/
def pyInsert (le : α → α → Bool) (a : α) : List α → List α
  | [] => [a]
  | b :: l => if le a b then a :: b :: l else b :: pyInsert le a l

/-- Stable insertion sort modelling Python's stable `sorted`. -/
def pySorted (le : α → α → Bool) : List α → List α
  | [] => []
  | a :: l => pyInsert le a (pySorted le l)

/-! ## Python string comparison (lexicographic on code points) -/

/-- Lexicographic `≤` on lists of characters, comparing code points,
modelling Python's string comparison. -/
def lexLe : List Char → List Char → Bool
  | [], _ => true
  | _ :: _, [] => false
  | a :: as, b :: bs =>
    if a.toNat < b.toNat then true
    else if b.toNat < a.toNat then false
    else lexLe as bs

/-- Python `s <= t` on strings. -/
def strLe (a b : String) : Bool := lexLe a.data b.data

/-! ## Python string primitives

Implemented over `List Char` so that every definition reduces inside the
kernel (the corresponding `String` library functions do not). -/

/-- The characters Python's `str.strip()` family removes. -/
def wsChar (c : Char) : Bool :=
  c = ' ' || c = '\t' || c = '\n' || c = '\r' || c = '\x0b' || c = '\x0c'

/-- Python `str.lower()` (ASCII case folding, which covers every key and
tag in this program). -/
def pyLower (s : String) : String := .mk (s.data.map Char.toLower)

/-- Python `str.strip()`. -/
def pyStrip (s : String) : String :=
  .mk (((s.data.dropWhile wsChar).reverse.dropWhile wsChar).reverse)

/-- Python `str.lstrip()`. -/
def pyLStrip (s : String) : String := .mk (s.data.dropWhile wsChar)

/-- Is `pat` a prefix of `l`? -/
def isPrefixB : List Char → List Char → Bool
  | [], _ => true
  | _ :: _, [] => false
  | p :: ps, c :: cs => p = c && isPrefixB ps cs

/-- Python `s.startswith(pre)`. -/
def pyStartsWith (s pre : String) : Bool := isPrefixB pre.data s.data

/-- Python `sub in s`. -/
def containsAt (pat : List Char) : List Char → Bool
  | [] => pat.isEmpty
  | c :: rest => isPrefixB pat (c :: rest) || containsAt pat rest

/-- Python `sub in s` on strings. -/
def pyContains (s sub : String) : Bool := containsAt sub.data s.data

/-- The scan of Python `str.replace`: replace each non-overlapping,
leftmost-first occurrence of `pat` by `rep`.  The fuel is an upper bound on
the number of scan steps; `pyReplace` passes the string length. -/
def replaceLoop (pat rep : List Char) : Nat → List Char → List Char
  | 0, l => l
  | _ + 1, [] => []
  | fuel + 1, c :: rest =>
    if pat ≠ [] && isPrefixB pat (c :: rest) then
      rep ++ replaceLoop pat rep fuel ((c :: rest).drop pat.length)
    else c :: replaceLoop pat rep fuel rest

/-- Python `s.replace(pat, rep)` (for the non-empty patterns the source
uses). -/
def pyReplace (s pat rep : String) : String :=
  .mk (replaceLoop pat.data rep.data s.data.length s.data)

/-- Python `s.split(sep)` for a single-character separator. -/
def splitOnSep (sep : Char) : List Char → List (List Char)
  | [] => [[]]
  | c :: rest =>
    match splitOnSep sep rest with
    | [] => [[c]]
    | h :: t => if c = sep then [] :: h :: t else (c :: h) :: t

/-! ## Data model: the element tree (`str` | `dict` | `list`) -/

/-- A tree node: Python `str`, `list`, or (ordered) `dict` as produced by
`xml_to_dict` and consumed by `sort_dict` / `dict_to_xml`. -/
inductive Node where
  | leaf : String → Node
  | seq : List Node → Node
  | map : List (String × Node) → Node

/-! ## Priority configuration (source lines 13–33) -/

/-- `priority_keywords` (source line 13): keywords that should appear at the
top of each element. -/
def priority_keywords : List String :=
  ["id", "keyname", "name", "cfgname", "cfgName", "startup_params",
   "partition", "mapName", "serverName", "realm_name", "interface_id",
   "vendorId"]

/-- `element_priority_keywords_map` (source lines 18–33): per-parent-tag
priority keyword lists, overriding `priority_keywords`. -/
def element_priority_keywords_map : List (String × List String) :=
  [("BdmObject", ["name", "id"]),
   ("OvldComponent", ["id", "name"]),
   ("OvldDropAction", ["type"]),
   ("counterPeer", ["appType"]),
   ("TransRouting", ["profileName"]),
   ("ccsSettings", ["app_type"]),
   ("domainBasedRealmSetting", ["homeDomain"]),
   ("perfMonObjectDef", ["type"]),
   ("LiXpErr2CauseCodeConfig", ["error_code"]),
   ("LiXpTemplateConfig", ["service_name"])]

/-- Python `key in dict` / `dict[key]` on an ordered association list. -/
def lookupList (m : List (String × List String)) (k : String) :
    Option (List String) :=
  match m with
  | [] => none
  | (k', v) :: rest => if k' = k then some v else lookupList rest k

/-! ## The sort key (`priority_key_func`, source lines 99–128) -/

/-- The sort key produced by `priority_key_func`: Python's `(0, i)` becomes
`prio i`, `(1, key_lower)` becomes `alpha key_lower`. -/
inductive SKey where
  | prio : Nat → SKey
  | alpha : String → SKey

/-- Tuple comparison of sort keys, as Python compares `(0, i)` and
`(1, key_lower)` tuples. -/
def SKey.le : SKey → SKey → Bool
  | .prio i, .prio j => i ≤ j
  | .prio _, .alpha _ => true
  | .alpha _, .prio _ => false
  | .alpha s, .alpha t => strLe s t

/-- The scan `for i, p_key in enumerate(lst): if key_lower == p_key.lower():
return (0, i)` — index of the first case-insensitive match. -/
def findPrioIdx (lst : List String) (key_lower : String) : Option Nat :=
  match lst with
  | [] => none
  | p :: rest =>
    if key_lower = pyLower p then some 0
    else (findPrioIdx rest key_lower).map (· + 1)

/-- `priority_key_func` (source lines 99–128), generalised over the two
priority tables (the source reads them from module-level globals).
`parent_tag = none` models Python `parent_tag=None`; a `some t` with
`t = ""` is falsy in Python, matching the `if parent_tag and …` test. -/
def priority_key_func (gp : List String) (epm : List (String × List String))
    (parent_tag : Option String) (key : String) : SKey :=
  let key_lower := pyLower key
  let fromList : List String → SKey := fun lst =>
    match findPrioIdx lst key_lower with
    | some i => .prio i
    | none => .alpha key_lower
  match parent_tag with
  | some t =>
    if t ≠ "" then
      match lookupList epm t with
      | some specific => fromList specific
      | none => fromList gp
    else fromList gp
  | none => fromList gp

/-- The boolean `≤` on dict items induced by `priority_key_func`. -/
def prioLe (gp : List String) (epm : List (String × List String))
    (parent_tag : Option String) (x y : String × Node) : Bool :=
  SKey.le (priority_key_func gp epm parent_tag x.1)
    (priority_key_func gp epm parent_tag y.1)

/-- The boolean `≤` of the first sort pass,
`sorted(items, key=lambda x: x[0].lower())` (source line 96). -/
def keyLowerLe (x y : String × Node) : Bool :=
  strLe (pyLower x.1) (pyLower y.1)

/-! ## `sort_dict` (source lines 67–135) -/

mutual

/-- `sort_dict` (source lines 67–135), generalised over the two priority
tables.  Dicts: recursively sort each value with the key as the new
`parent_tag`, pre-sort the items case-insensitively by key, then stable-sort
them by `priority_key_func`.  Lists: sort each item with the same
`parent_tag`.  Anything else passes through. -/
def sortDictG (gp : List String) (epm : List (String × List String)) :
    Node → Option String → Node
  | .map entries, parent_tag =>
    let items := sortValsG gp epm entries
    let items1 := pySorted keyLowerLe items
    .map (pySorted (prioLe gp epm parent_tag) items1)
  | .seq l, parent_tag => .seq (sortSeqG gp epm l parent_tag)
  | .leaf s, _ => .leaf s

/-- The loop `for k, v in d.items(): items.append((k, sort_dict(v, k)))`
(source lines 91–95). -/
def sortValsG (gp : List String) (epm : List (String × List String)) :
    List (String × Node) → List (String × Node)
  | [] => []
  | (k, v) :: rest => (k, sortDictG gp epm v (some k)) :: sortValsG gp epm rest

/-- The list branch `[sort_dict(i, parent_tag) for i in d]`
(source line 133). -/
def sortSeqG (gp : List String) (epm : List (String × List String)) :
    List Node → Option String → List Node
  | [], _ => []
  | x :: xs, parent_tag =>
    sortDictG gp epm x parent_tag :: sortSeqG gp epm xs parent_tag

end

/-- `sort_dict` with the source's global priority tables. -/
def sort_dict (d : Node) (parent_tag : Option String) : Node :=
  sortDictG priority_keywords element_priority_keywords_map d parent_tag

/-- The priority list `priority_key_func` resolves for a given `parent_tag`:
the per-tag override list when the (truthy) parent tag has one, else the
global list.  Used to state theorems; the lemma
`priority_key_func_eq_resolved` connects it to `priority_key_func`. -/
def resolvedList (gp : List String) (epm : List (String × List String)) :
    Option String → List String
  | some t =>
    if t ≠ "" then
      match lookupList epm t with
      | some specific => specific
      | none => gp
    else gp
  | none => gp

/-- The sort key computed from a resolved priority list. -/
def skeyOf (lst : List String) (key : String) : SKey :=
  match findPrioIdx lst (pyLower key) with
  | some i => .prio i
  | none => .alpha (pyLower key)

/-! ## The element model (`xml.etree.ElementTree.Element`) -/

/-- An XML element as `xml.etree.ElementTree` presents it: a tag (with any
namespace already folded in as a `{uri}` prefix), attributes, the text
directly after the start tag (with CDATA sections merged in), and child
elements. -/
inductive Element where
  | mk : (tag : String) → (attrib : List (String × String)) →
      (text : Option String) → (children : List Element) → Element

def Element.tag : Element → String
  | .mk t _ _ _ => t

def Element.attrib : Element → List (String × String)
  | .mk _ a _ _ => a

def Element.text : Element → Option String
  | .mk _ _ tx _ => tx

def Element.children : Element → List Element
  | .mk _ _ _ c => c

/-- `child.tag.split('}')[-1]` (source lines 56 and 399): strip the
namespace prefix from a tag. -/
def tagLocal (tag : String) : String :=
  .mk (((splitOnSep '}' tag.data).getLast?).getD tag.data)

/-! ## `xml_to_dict` (source lines 35–65) -/

/-- One iteration of the merge loop in `xml_to_dict` (source lines 58–64):
add `(tag, value)` to the ordered dict `result`, aggregating repeated tags
into a list (promoting a scalar to a 2-list on first collision, appending
thereafter).  Python dict update keeps the key's position; a new key is
appended at the end. -/
def addChild (result : List (String × Node)) (tag : String) (value : Node) :
    List (String × Node) :=
  match result with
  | [] => [(tag, value)]
  | (k, v) :: rest =>
    if k = tag then
      match v with
      | .seq l => (k, .seq (l ++ [value])) :: rest
      | old => (k, .seq [old, value]) :: rest
    else (k, v) :: addChild rest tag value

mutual

/-- `xml_to_dict` (source lines 35–65): an element with no children becomes
its stripped text (empty string when there is none); otherwise a dict built
by folding `addChild` over the children, stripping namespaces from tags. -/
def xml_to_dict (e : Element) : Node :=
  match e with
  | .mk _ _ text children =>
    match children with
    | [] => .leaf (match text with | some t => pyStrip t | none => "")
    | c :: cs => .map (xmlChildren [] (c :: cs))

/-- The loop `for child in children` of `xml_to_dict`, carrying the ordered
dict built so far. -/
def xmlChildren (acc : List (String × Node)) : List Element →
    List (String × Node)
  | [] => acc
  | c :: rest => xmlChildren (addChild acc (tagLocal c.tag) (xml_to_dict c)) rest

end

/-! ## `dict_to_xml` (source lines 137–173) -/

/-- Python's `str(...)` for the non-dict values that reach the `else`
branch of `dict_to_xml` (source line 172).  In the pipeline this is only
ever applied to strings; the list and dict renderings model Python's `repr`
shallowly and are unreachable from `xml_to_dict` output. -/
def str_of_node : Node → String
  | .leaf s => s
  | .seq l => "[" ++ String.intercalate ", "
      (l.map (fun x => match x with
        | .leaf s => "'" ++ s ++ "'"
        | _ => "...")) ++ "]"
  | .map _ => "OrderedDict(...)"

mutual

/-- `dict_to_xml` (source lines 137–173): a dict becomes an element with one
child per key (one child per item for list values, all sharing the key as
tag); a non-dict value becomes the element's text.  The namespace attribute
set is attached only when given (the source passes it only at the root). -/
def dict_to_xml (tag : String) (d : Node)
    (ns : Option (List (String × String))) : Element :=
  match d with
  | .map entries => .mk tag (ns.getD []) none (dxChildren entries)
  | other => .mk tag (ns.getD []) (some (str_of_node other)) []

/-- The loop `for key, val in d.items()` of `dict_to_xml`. -/
def dxChildren : List (String × Node) → List Element
  | [] => []
  | (key, val) :: rest =>
    (match val with
     | .seq items => dxItems key items
     | v => [dict_to_xml key v none]) ++ dxChildren rest

/-- The inner loop `for item in val` for list values. -/
def dxItems (key : String) : List Node → List Element
  | [] => []
  | item :: items => dict_to_xml key item none :: dxItems key items

end

/-! ## Namespace extraction (source lines 392–396) -/

/-- Scan for the first `}` after at least one character, refusing newlines
(the regex `.` does not match a newline). -/
def nsScan (acc : List Char) : List Char → Option String
  | [] => none
  | c :: rest =>
    if c = '}' then
      match acc with
      | [] => nsScan [c] rest
      | _ => some (String.mk acc.reverse)
    else if c = '\n' then none
    else nsScan (c :: acc) rest

/-- `re.match(r'\{(.+?)\}', root.tag)` (source line 393): when the tag
starts with `{`, capture the shortest non-empty newline-free run of
characters up to a closing `}`. -/
def extract_namespace (tag : String) : Option String :=
  match tag.data with
  | '{' :: rest => nsScan [] rest
  | _ => none

/-! ## Claim-side predicates on trees and elements -/

mutual

/-- Boolean check of the list invariant: every `list`-valued entry reachable
in the tree holds at least two items. -/
def listsOK : Node → Bool
  | .leaf _ => true
  | .seq l => decide (2 ≤ l.length) && listsOKList l
  | .map es => listsOKEntries es

/-- `listsOK` on the members of a list value. -/
def listsOKList : List Node → Bool
  | [] => true
  | x :: xs => listsOK x && listsOKList xs

/-- `listsOK` on the values of a dict. -/
def listsOKEntries : List (String × Node) → Bool
  | [] => true
  | (_, v) :: rest => listsOK v && listsOKEntries rest

end

mutual

/-- Boolean check that an element and all of its descendants carry no
attribute at all. -/
def noAttribs : Element → Bool
  | .mk _ attrib _ children => attrib.isEmpty && noAttribsList children

/-- `noAttribs` on a list of elements. -/
def noAttribsList : List Element → Bool
  | [] => true
  | c :: cs => noAttribs c && noAttribsList cs

end

mutual

/-- Replace every attribute set in an element tree by the empty one,
keeping tags, text and children. -/
def eraseAttribs : Element → Element
  | .mk tag _ text children => .mk tag [] text (eraseAttribsList children)

/-- `eraseAttribs` on a list of elements. -/
def eraseAttribsList : List Element → List Element
  | [] => []
  | c :: cs => eraseAttribs c :: eraseAttribsList cs

end

mutual

/-- The ordering property claimed for sorted trees: every dict's keys are
pairwise ordered by the sort key `priority_key_func` resolves for that
dict's parent tag (priority keys first in list position order, then the
rest alphabetically case-insensitively), and every value is recursively
ordered with its own key as parent tag. -/
def SortedNode (gp : List String) (epm : List (String × List String)) :
    Option String → Node → Prop
  | _, .leaf _ => True
  | pt, .seq l => SortedList gp epm pt l
  | pt, .map es =>
    es.Pairwise (fun x y => prioLe gp epm pt x y = true) ∧
      SortedEntries gp epm es

/-- `SortedNode` for every member of a list value (lists keep the parent
tag: they model repeated siblings, not a new scope). -/
def SortedList (gp : List String) (epm : List (String × List String)) :
    Option String → List Node → Prop
  | _, [] => True
  | pt, x :: xs => SortedNode gp epm pt x ∧ SortedList gp epm pt xs

/-- `SortedNode` for every value of a dict, with its key as parent tag. -/
def SortedEntries (gp : List String) (epm : List (String × List String)) :
    List (String × Node) → Prop
  | [] => True
  | (k, v) :: rest => SortedNode gp epm (some k) v ∧ SortedEntries gp epm rest

end

/-- Association lookup among a dict's entries. -/
def lookupNode (es : List (String × Node)) (k : String) : Option Node :=
  match es with
  | [] => none
  | (k', v) :: rest => if k' = k then some v else lookupNode rest k

/-- Python `d[key]` on a dict node (the source only indexes keys that are
present; the default is unreachable there). -/
def dictGet (d : Node) (k : String) : Node :=
  match d with
  | .map es => (lookupNode es k).getD (.leaf "")
  | _ => .leaf ""

/-- The keys of a dict node, in order. -/
def mapKeys : Node → List String
  | .map es => es.map (·.1)
  | _ => []

/-- Source lines 391–406: extract the root namespace, strip it from the root
tag, convert to a dict, sort, and convert back with the namespace attached
to the new root only. -/
def rebuildRoot (root : Element) : Element :=
  let ns : Option (List (String × String)) :=
    match extract_namespace root.tag with
    | some uri => some [("xmlns", uri)]
    | none => none
  let root_tag := tagLocal root.tag
  let xml_dict := Node.map [(root_tag, xml_to_dict root)]
  let sorted_dict := sort_dict xml_dict (some root_tag)
  dict_to_xml root_tag (dictGet sorted_dict root_tag) ns

/-! ## Python `re` model

A backtracking matcher for the fragment of Python's regular expressions the
source uses: literals, `.`, escapes (`\s`, `\S`, numbered backreferences,
escaped punctuation), character classes (possibly negated, of characters
and `\s`/`\S`), capturing groups, alternation, and greedy/lazy `*` and `+`.
Patterns are parsed from the very pattern strings the source builds.
Recursions carry fuel so that everything reduces in the kernel; the drivers
pass fuel that is ample for the concrete inputs of this development. -/

/-- An item of a character class. -/
inductive ClsItem where
  | ch : Char → ClsItem
  | ws : ClsItem
  | nws : ClsItem

/-- Does a class item accept the character? -/
def clsItemMatch (c : Char) : ClsItem → Bool
  | .ch c' => c = c'
  | .ws => wsChar c
  | .nws => !wsChar c

/-- Does a (possibly negated) class accept the character? -/
def clsMatch (neg : Bool) (items : List ClsItem) (c : Char) : Bool :=
  let hit := items.any (clsItemMatch c)
  if neg then !hit else hit

/-- Abstract syntax of the regex fragment. -/
inductive RxAst where
  | eps : RxAst
  | lit : Char → RxAst
  | anyc : RxAst
  | cls : Bool → List ClsItem → RxAst
  | cat : RxAst → RxAst → RxAst
  | alt : RxAst → RxAst → RxAst
  | star : Bool → RxAst → RxAst
  | plus : Bool → RxAst → RxAst
  | grp : Nat → RxAst → RxAst
  | bref : Nat → RxAst

/-- Group captures: group index to (start, end) positions. -/
def setGroup (g : List (Nat × (Nat × Nat))) (i : Nat) (v : Nat × Nat) :
    List (Nat × (Nat × Nat)) :=
  match g with
  | [] => [(i, v)]
  | (j, w) :: rest => if j = i then (i, v) :: rest else (j, w) :: setGroup rest i v

/-- Look up a group capture. -/
def getGroup (g : List (Nat × (Nat × Nat))) (i : Nat) : Option (Nat × Nat) :=
  match g with
  | [] => none
  | (j, w) :: rest => if j = i then some w else getGroup rest i

/-- The backtracking matcher, in continuation-passing style.  `orig` is the
whole subject (for backreferences), `pos`/`rest` the current position and
suffix, `g` the captures, `k` the continuation.  Lazy quantifiers try the
continuation first; greedy ones try to consume first, leftmost alternative
first — Python's strategy. -/
def mrun (dotall : Bool) (orig : List Char) :
    Nat → RxAst → Nat → List Char → List (Nat × (Nat × Nat)) →
    (Nat → List Char → List (Nat × (Nat × Nat)) → Option (Nat × List (Nat × (Nat × Nat)))) →
    Option (Nat × List (Nat × (Nat × Nat)))
  | 0, _, _, _, _, _ => none
  | fuel + 1, r, pos, rest, g, k =>
    match r with
    | .eps => k pos rest g
    | .lit c =>
      match rest with
      | c' :: rest' => if c' = c then k (pos + 1) rest' g else none
      | [] => none
    | .anyc =>
      match rest with
      | c' :: rest' =>
        if dotall || c' ≠ '\n' then k (pos + 1) rest' g else none
      | [] => none
    | .cls neg items =>
      match rest with
      | c' :: rest' => if clsMatch neg items c' then k (pos + 1) rest' g else none
      | [] => none
    | .cat a b =>
      mrun dotall orig fuel a pos rest g
        (fun p' r' g' => mrun dotall orig fuel b p' r' g' k)
    | .alt a b =>
      match mrun dotall orig fuel a pos rest g k with
      | some res => some res
      | none => mrun dotall orig fuel b pos rest g k
    | .star lazy r1 =>
      if lazy then
        match k pos rest g with
        | some res => some res
        | none =>
          mrun dotall orig fuel r1 pos rest g (fun p' r' g' =>
            if p' = pos then none
            else mrun dotall orig fuel (.star lazy r1) p' r' g' k)
      else
        match mrun dotall orig fuel r1 pos rest g (fun p' r' g' =>
            if p' = pos then none
            else mrun dotall orig fuel (.star lazy r1) p' r' g' k) with
        | some res => some res
        | none => k pos rest g
    | .plus lazy r1 =>
      mrun dotall orig fuel r1 pos rest g (fun p' r' g' =>
        mrun dotall orig fuel (.star lazy r1) p' r' g' k)
    | .grp idx r1 =>
      mrun dotall orig fuel r1 pos rest g
        (fun p' r' g' => k p' r' (setGroup g' idx (pos, p')))
    | .bref idx =>
      match getGroup g idx with
      | some (s, e) =>
        let cap := (orig.drop s).take (e - s)
        if isPrefixB cap rest then
          k (pos + (e - s)) (rest.drop (e - s)) g
        else none
      | none => none

/-- A regex match: start, end, captures. -/
structure RMatch where
  ms : Nat
  me : Nat
  mg : List (Nat × (Nat × Nat))

/-- The substring of `orig` between two positions. -/
def subStr (orig : List Char) (s e : Nat) : String :=
  .mk ((orig.drop s).take (e - s))

/-- Python `match.group(i)` (the empty string for an unset group, which the
source never observes). -/
def groupStr (orig : List Char) (m : RMatch) (i : Nat) : String :=
  if i = 0 then subStr orig m.ms m.me
  else
    match getGroup m.mg i with
    | some (s, e) => subStr orig s e
    | none => ""

/-! ### Parsing pattern strings -/

/-- Parse the items of a character class up to the closing `]`. -/
def parseCls : List Char → Option (List ClsItem × List Char)
  | ']' :: rest => some ([], rest)
  | '\\' :: 's' :: rest =>
    match parseCls rest with
    | none => none
    | some (items, rest') => some (.ws :: items, rest')
  | '\\' :: 'S' :: rest =>
    match parseCls rest with
    | none => none
    | some (items, rest') => some (.nws :: items, rest')
  | '\\' :: c :: rest =>
    match parseCls rest with
    | none => none
    | some (items, rest') => some (.ch c :: items, rest')
  | c :: rest =>
    match parseCls rest with
    | none => none
    | some (items, rest') => some (.ch c :: items, rest')
  | [] => none

/-- The grammar level the pattern scanner is working at: alternation,
concatenation, a postfixed atom, or a bare atom. -/
inductive PMode where
  | alt : PMode
  | seq : PMode
  | post : PMode
  | atom : PMode

/-- Recursive-descent scanner for pattern strings, as a single
fuel-structural function so that it reduces in the kernel.  Returns the
ast, the remaining pattern, and the next free group number. -/
def parseStep : Nat → PMode → List Char → Nat → Option (RxAst × List Char × Nat)
  | 0, _, _, _ => none
  | fuel + 1, .alt, l, gn =>
    match parseStep fuel .seq l gn with
    | none => none
    | some (a, rest, gn') =>
      match rest with
      | '|' :: rest' =>
        match parseStep fuel .alt rest' gn' with
        | none => none
        | some (b, rest'', gn'') => some (.alt a b, rest'', gn'')
      | _ => some (a, rest, gn')
  | fuel + 1, .seq, l, gn =>
    match l with
    | [] => some (.eps, [], gn)
    | '|' :: _ => some (.eps, l, gn)
    | ')' :: _ => some (.eps, l, gn)
    | _ =>
      match parseStep fuel .post l gn with
      | none => none
      | some (a, rest, gn') =>
        match parseStep fuel .seq rest gn' with
        | none => none
        | some (b, rest', gn'') => some (.cat a b, rest', gn'')
  | fuel + 1, .post, l, gn =>
    match parseStep fuel .atom l gn with
    | none => none
    | some (a, rest, gn') =>
      match rest with
      | '*' :: '?' :: rest' => some (.star true a, rest', gn')
      | '*' :: rest' => some (.star false a, rest', gn')
      | '+' :: '?' :: rest' => some (.plus true a, rest', gn')
      | '+' :: rest' => some (.plus false a, rest', gn')
      | _ => some (a, rest, gn')
  | fuel + 1, .atom, l, gn =>
    match l with
    | '(' :: rest =>
      match parseStep fuel .alt rest (gn + 1) with
      | none => none
      | some (a, rest', gn') =>
        match rest' with
        | ')' :: rest'' => some (.grp gn a, rest'', gn')
        | _ => none
    | '[' :: '^' :: rest =>
      match parseCls rest with
      | none => none
      | some (items, rest') => some (.cls true items, rest', gn)
    | '[' :: rest =>
      match parseCls rest with
      | none => none
      | some (items, rest') => some (.cls false items, rest', gn)
    | '\\' :: 's' :: rest => some (.cls false [.ws], rest, gn)
    | '\\' :: 'S' :: rest => some (.cls true [.ws], rest, gn)
    | '\\' :: c :: rest =>
      if '1' ≤ c ∧ c ≤ '9' then some (.bref (c.toNat - 48), rest, gn)
      else some (.lit c, rest, gn)
    | '.' :: rest => some (.anyc, rest, gn)
    | c :: rest => some (.lit c, rest, gn)
    | [] => none

/-- Parse a whole pattern string. -/
def parseRx (pat : String) : Option RxAst :=
  match parseStep (pat.data.length * 4 + 16) .alt pat.data 1 with
  | some (a, [], _) => some a
  | _ => none

/-! ### The `re` driver functions -/

/-- Fuel ample for every matching attempt in this development. -/
def mFuel (orig : List Char) : Nat := orig.length * 2 + 1000

/-- Attempt an anchored match at successive positions, returning the
leftmost match — `re.search`. -/
def reFindAux (dotall : Bool) (ast : RxAst) (orig : List Char) :
    Nat → List Char → Option RMatch
  | pos, rest =>
    match mrun dotall orig (mFuel orig) ast pos rest []
        (fun p _ g => some (p, g)) with
    | some (e, g) => some ⟨pos, e, g⟩
    | none =>
      match rest with
      | [] => none
      | _ :: rest' => reFindAux dotall ast orig (pos + 1) rest'

/-- `re.search(pattern, s)` (also the anchored `re.match` when the pattern
cannot match later, which the source never relies on). -/
def reSearch (dotall : Bool) (pat : String) (s : String) : Option RMatch :=
  match parseRx pat with
  | some ast => reFindAux dotall ast s.data 0 s.data
  | none => none

/-- The iteration loop of `reFindIter`. -/
def reFindIterAux (dotall : Bool) (ast : RxAst) (orig : List Char) :
    Nat → Nat → List Char → List RMatch
  | 0, _, _ => []
  | fuel + 1, pos, rest =>
    match reFindAux dotall ast orig pos rest with
    | none => []
    | some m =>
      let next := if m.me = m.ms then m.me + 1 else m.me
      m :: reFindIterAux dotall ast orig fuel next (orig.drop next)

/-- `re.finditer`: all non-overlapping matches, scanning left to right and
resuming after each match (one character later for an empty match). -/
def reFindIter (dotall : Bool) (pat : String) (s : String) : List RMatch :=
  match parseRx pat with
  | some ast => reFindIterAux dotall ast s.data (s.data.length + 1) 0 s.data
  | none => []

/-- The iteration loop of `reSub`. -/
def reSubAux (dotall : Bool) (ast : RxAst) (orig : List Char) :
    Nat → Nat → List Char → (RMatch → String) → List Char
  | 0, _, rest, _ => rest
  | fuel + 1, pos, rest, f =>
    match reFindAux dotall ast orig pos rest with
    | none => rest
    | some m =>
      let pre := rest.take (m.ms - pos)
      if m.me = m.ms then
        match orig.drop m.me with
        | [] => pre ++ (f m).data
        | c :: rest' =>
          pre ++ (f m).data ++ [c] ++
            reSubAux dotall ast orig fuel (m.me + 1) rest' f
      else
        pre ++ (f m).data ++
          reSubAux dotall ast orig fuel m.me (orig.drop m.me) f

/-- `re.sub(pattern, f, s)` with a replacement function: replace each
non-overlapping match, left to right. -/
def reSub (dotall : Bool) (pat : String) (f : RMatch → String) (s : String) :
    String :=
  match parseRx pat with
  | some ast =>
    .mk (reSubAux dotall ast s.data (s.data.length + 1) 0 s.data f)
  | none => s

/-- `re.findall` for a two-group pattern: the list of group pairs. -/
def reFindAllPairs (dotall : Bool) (pat : String) (s : String) :
    List (String × String) :=
  (reFindIter dotall pat s).map
    (fun m => (groupStr s.data m 1, groupStr s.data m 2))

/-- `re.escape` (Python 3.7+: escape the regex metacharacters; our inputs
only pass alphanumeric identifier values through it). -/
def re_escape (s : String) : String :=
  .mk (s.data.flatMap (fun c =>
    if c.isAlphanum || c = '_' then [c] else ['\\', c]))

/-! ## `xml.etree.ElementTree.parse` model

A recursive-descent parser for the well-formed documents this development
feeds it, reproducing what `ET.parse(...).getroot()` hands the source:
entities decoded, CDATA merged into text, `.text` equal to the character
data before the first child (`None` when there is none), comments and the
XML declaration skipped, and a default `xmlns` declaration folded into the
tags of its element and descendants as a `{uri}` prefix. -/

/-- A character that may appear in a tag or attribute name. -/
def nameChar (c : Char) : Bool :=
  !(wsChar c || c = '>' || c = '/' || c = '=' || c = '<' ||
    c = '"' || c = '\'')

/-- Decode the XML entities `ElementTree` decodes in character data. -/
def decodeEntity (l : List Char) : Option (Char × List Char) :=
  if isPrefixB "amp;".data l then some ('&', l.drop 4)
  else if isPrefixB "lt;".data l then some ('<', l.drop 3)
  else if isPrefixB "gt;".data l then some ('>', l.drop 3)
  else if isPrefixB "quot;".data l then some ('"', l.drop 5)
  else if isPrefixB "apos;".data l then some ('\'', l.drop 5)
  else none

/-- Scan an attribute value up to the closing quote, decoding entities. -/
def scanAttrValue (q : Char) : Nat → List Char → Option (List Char × List Char)
  | 0, _ => none
  | _ + 1, [] => none
  | fuel + 1, c :: rest =>
    if c = q then some ([], rest)
    else if c = '<' then none
    else if c = '&' then
      match decodeEntity rest with
      | some (d, rest') =>
        match scanAttrValue q fuel rest' with
        | some (v, rest'') => some (d :: v, rest'')
        | none => none
      | none => none
    else
      match scanAttrValue q fuel rest with
      | some (v, rest') => some (c :: v, rest')
      | none => none

/-- Parse the attribute list of a start tag, stopping before `>` or `/>`. -/
def parseAttrs : Nat → List Char → Option (List (String × String) × List Char)
  | 0, _ => none
  | fuel + 1, l =>
    let l := l.dropWhile wsChar
    match l with
    | '>' :: _ => some ([], l)
    | '/' :: '>' :: _ => some ([], l)
    | c :: _ =>
      if nameChar c then
        let nm := l.takeWhile nameChar
        let l1 := (l.dropWhile nameChar).dropWhile wsChar
        match l1 with
        | '=' :: l2 =>
          match l2.dropWhile wsChar with
          | '"' :: l3 =>
            match scanAttrValue '"' fuel l3 with
            | some (v, l4) =>
              match parseAttrs fuel l4 with
              | some (attrs, l5) => some ((String.mk nm, String.mk v) :: attrs, l5)
              | none => none
            | none => none
          | '\'' :: l3 =>
            match scanAttrValue '\'' fuel l3 with
            | some (v, l4) =>
              match parseAttrs fuel l4 with
              | some (attrs, l5) => some ((String.mk nm, String.mk v) :: attrs, l5)
              | none => none
            | none => none
          | _ => none
        | _ => none
      else none
    | [] => none

mutual

/-- Parse one element, the `<` already consumed. -/
def parseElem : Nat → List Char → Option (Element × List Char)
  | 0, _ => none
  | fuel + 1, l =>
    let nm := l.takeWhile nameChar
    if nm.isEmpty then none
    else
      match parseAttrs fuel (l.dropWhile nameChar) with
      | none => none
      | some (attrs, l1) =>
        match l1 with
        | '/' :: '>' :: l2 => some (.mk (String.mk nm) attrs none [], l2)
        | '>' :: l2 =>
          match parseContent fuel nm [] [] l2 with
          | some (text, children, l3) =>
            some (.mk (String.mk nm)
              attrs
              (if text.isEmpty then none else some (String.mk text))
              children, l3)
          | none => none
        | _ => none

/-- Parse element content up to the matching end tag.  `textAcc` collects
the character data seen before the first child (reversed); data after a
child (tail text in `ElementTree`) is consumed but dropped, since nothing
in the source reads it. -/
def parseContent : Nat → List Char → List Char → List Element →
    List Char → Option (List Char × List Element × List Char)
  | 0, _, _, _, _ => none
  | fuel + 1, nm, textAcc, children, l =>
    match l with
    | [] => none
    | '<' :: '/' :: l1 =>
      let close := l1.takeWhile nameChar
      let l2 := (l1.dropWhile nameChar).dropWhile wsChar
      match l2 with
      | '>' :: l3 =>
        if close = nm then some (textAcc.reverse, children.reverse, l3)
        else none
      | _ => none
    | '<' :: '!' :: '[' :: 'C' :: 'D' :: 'A' :: 'T' :: 'A' :: '[' :: l1 =>
      match scanCData fuel [] l1 with
      | some (dat, l2) =>
        if children.isEmpty then
          parseContent fuel nm (dat.reverse ++ textAcc) children l2
        else parseContent fuel nm textAcc children l2
      | none => none
    | '<' :: '!' :: '-' :: '-' :: l1 =>
      match scanComment fuel l1 with
      | some l2 => parseContent fuel nm textAcc children l2
      | none => none
    | '<' :: l1 =>
      match parseElem fuel l1 with
      | some (child, l2) => parseContent fuel nm textAcc (child :: children) l2
      | none => none
    | '&' :: l1 =>
      match decodeEntity l1 with
      | some (d, l2) =>
        if children.isEmpty then
          parseContent fuel nm (d :: textAcc) children l2
        else parseContent fuel nm textAcc children l2
      | none => none
    | c :: l1 =>
      if children.isEmpty then
        parseContent fuel nm (c :: textAcc) children l1
      else parseContent fuel nm textAcc children l1

/-- Scan CDATA content up to `]]>`. -/
def scanCData : Nat → List Char → List Char → Option (List Char × List Char)
  | 0, _, _ => none
  | _ + 1, _, [] => none
  | fuel + 1, acc, c :: rest =>
    if isPrefixB "]]>".data (c :: rest) then some (acc.reverse, rest.drop 2)
    else scanCData fuel (c :: acc) rest

/-- Scan a comment up to `-->`. -/
def scanComment : Nat → List Char → Option (List Char)
  | 0, _ => none
  | _ + 1, [] => none
  | fuel + 1, c :: rest =>
    if isPrefixB "-->".data (c :: rest) then some (rest.drop 2)
    else scanComment fuel rest

end

mutual

/-- Fold a default-namespace declaration into the tags of an element and
its descendants, as `ElementTree` reports them, dropping the `xmlns`
attribute itself. -/
def applyNs (cur : Option String) : Element → Element
  | .mk tag attrs text children =>
    let declared := attrs.lookup "xmlns"
    let eff := match declared with
      | some uri => some uri
      | none => cur
    let tag' := match eff with
      | some uri => "\x7b" ++ uri ++ "\x7d" ++ tag
      | none => tag
    .mk tag' (attrs.filter (fun kv => kv.1 ≠ "xmlns")) text
      (applyNsList eff children)

/-- `applyNs` on a list of elements. -/
def applyNsList (cur : Option String) : List Element → List Element
  | [] => []
  | c :: cs => applyNs cur c :: applyNsList cur cs

end

/-- Scan to the end `?>` of a declaration. -/
def skipToDeclEnd (l : List Char) : Option (List Char) :=
  match l with
  | [] => none
  | '?' :: '>' :: rest => some rest
  | _ :: rest => skipToDeclEnd rest

/-- Skip the XML declaration, if present. -/
def skipDecl : Nat → List Char → Option (List Char)
  | _, l =>
    if isPrefixB "<?xml".data l then skipToDeclEnd l
    else some l

/-- `ET.parse(file).getroot()` for the documents of this development. -/
def parseXML (content : String) : Option Element :=
  let l := content.data.dropWhile wsChar
  match skipDecl l.length l with
  | none => none
  | some l1 =>
    match (l1.dropWhile wsChar) with
    | '<' :: l2 =>
      match parseElem (content.data.length + 8) l2 with
      | some (e, l3) =>
        if (l3.dropWhile wsChar).isEmpty then some (applyNs none e)
        else none
      | none => none
    | _ => none

/-! ## `prettify` (source lines 175–196)

`prettify` serialises with `ET.tostring`, reparses with `minidom`, and
pretty-prints with `toprettyxml(indent="    ")`.  For the trees
`dict_to_xml` produces (each element has either text or children, never
both, and no redundant whitespace), that composition is the printer below:
four-space indentation, childless elements self-closed when their text is
empty or absent, a single text child written inline with `minidom`'s
escaping (`&`, `<`, `"`, `>`), each line ended with a newline.  The XML
declaration line is dropped and `&quot;` is turned back into `"`
(source lines 193–195). -/

/-- `minidom`'s `_write_data` escaping, in its replacement order. -/
def escData (s : String) : String :=
  pyReplace (pyReplace (pyReplace (pyReplace s "&" "&amp;")
    "<" "&lt;") "\"" "&quot;") ">" "&gt;"

/-- Render an attribute list as `minidom` writes it. -/
def attrText : List (String × String) → String
  | [] => ""
  | (k, v) :: rest => " " ++ k ++ "=\"" ++ escData v ++ "\"" ++ attrText rest

mutual

/-- One element of `toprettyxml(indent="    ")` output, at the given
indentation. -/
def prettyElem (indent : String) : Element → String
  | .mk tag attrs text children =>
    match children with
    | [] =>
      match text with
      | some t =>
        if t = "" then indent ++ "<" ++ tag ++ attrText attrs ++ "/>\n"
        else
          indent ++ "<" ++ tag ++ attrText attrs ++ ">" ++ escData t ++
            "</" ++ tag ++ ">\n"
      | none => indent ++ "<" ++ tag ++ attrText attrs ++ "/>\n"
    | c :: cs =>
      indent ++ "<" ++ tag ++ attrText attrs ++ ">\n" ++
        prettyList (indent ++ "    ") (c :: cs) ++
        indent ++ "</" ++ tag ++ ">\n"

/-- `prettyElem` over a list of children. -/
def prettyList (indent : String) : List Element → String
  | [] => ""
  | c :: cs => prettyElem indent c ++ prettyList indent cs

end

/-- Drop everything up to and including the first newline —
`s.split('\n', 1)[1]`. -/
def dropFirstLine (s : String) : String :=
  .mk ((s.data.dropWhile (fun c => c ≠ '\n')).drop 1)

/-- `prettify` (source lines 175–196). -/
def prettify (elem : Element) : String :=
  let pretty_xml_with_decl :=
    "<?xml version=\"1.0\" ?>\n" ++ prettyElem "" elem
  let pretty_xml :=
    if pyContains pretty_xml_with_decl "<?xml" then
      dropFirstLine pretty_xml_with_decl
    else pretty_xml_with_decl
  pyReplace pretty_xml "&quot;" "\""

/-- Python `s.split()[0]`: the first whitespace-separated word (the
`element_tag.split()[0]` idiom of the replacement builders). -/
def firstWord (s : String) : String :=
  .mk ((s.data.dropWhile wsChar).takeWhile (fun c => !wsChar c))

/-! ## Python dict and list helpers for the scanners -/

/-- Python `s.split(sep)` returning strings. -/
def pySplitStr (sep : Char) (s : String) : List String :=
  (splitOnSep sep s.data).map String.mk

/-- Python dict assignment `d[k] = v`: overwrite in place, append new keys
at the end. -/
def dinsert (d : List (String × α)) (k : String) (v : α) :
    List (String × α) :=
  match d with
  | [] => [(k, v)]
  | (k', v') :: rest =>
    if k' = k then (k, v) :: rest else (k', v') :: dinsert rest k v

/-- Append `v` to the list stored under `k`, creating the entry when
missing (the `cdata_by_tag` accumulation, source lines 411–415). -/
def dappend (d : List (String × List α)) (k : String) (v : α) :
    List (String × List α) :=
  match d with
  | [] => [(k, [v])]
  | (k', vs) :: rest =>
    if k' = k then (k, vs ++ [v]) :: rest else (k', vs) :: dappend rest k v

/-- Association lookup with string keys. -/
def dlookup (d : List (String × α)) (k : String) : Option α :=
  match d with
  | [] => none
  | (k', v) :: rest => if k' = k then some v else dlookup rest k

/-- `list(set(xs))`, modelled as order-preserving deduplication.  CPython's
set iteration order is unspecified; every use in the source feeds a loop
whose net effect on the final output is order-insensitive for the inputs
of this development. -/
def dedupeKeep : List String → List String
  | [] => []
  | x :: xs => x :: (dedupeKeep xs).filter (fun y => y ≠ x)

/-- Python `parts.headD`-style access `parts[0]`. -/
def headStr (parts : List String) : String := parts.headD ""

/-- Python `parts[-1]`. -/
def lastStr (parts : List String) : String := (parts.getLast?).getD ""

/-! ## `find_cdata_sections` (source lines 198–248) -/

/-- `find_cdata_sections`: find every outer element block, and within it
every immediate CDATA-wrapped sub-element, recording
`(element_context, cdata_element_tag, cdata_content)` where the context is
the block's tag plus any identifier fields found in the block. -/
def find_cdata_sections (content : String) :
    List (String × String × String) :=
  let element_blocks :=
    reFindIter false "<([^\\s>]+)[^>]*>([\\s\\S]*?)</\\1>" content
  element_blocks.flatMap (fun block_match =>
    let element_tag := groupStr content.data block_match 1
    let element_content := groupStr content.data block_match 2
    let cdata_matches :=
      reFindIter true "<([^>]+)>\\s*<!\\[CDATA\\[(.*?)\\]\\]>" element_content
    cdata_matches.map (fun cdata_match =>
      let cdata_element_tag := pyStrip (groupStr element_content.data cdata_match 1)
      let cdata_content := groupStr element_content.data cdata_match 2
      let identifiers := reFindAllPairs false
        "<(profileName|name|id|keyname|cfgname|cfgName)>([^<]+)</\\1>"
        element_content
      let context_signature := element_tag ++
        String.join (identifiers.map (fun p => ":" ++ p.1 ++ "=" ++ p.2))
      let element_context := context_signature ++ ":" ++ cdata_element_tag
      (element_context, cdata_element_tag, cdata_content)))

/-! ## `find_xml_declaration_escaped_content` (source lines 250–275) -/

/-- Python slicing `s[a:b]` for the in-range indices this development
reaches. -/
def pySlice (s : String) (a b : Nat) : String :=
  .mk ((s.data.take b).drop a)

/-- `find_xml_declaration_escaped_content`: elements whose text contains an
escaped XML declaration, mapped to a reconstructed slice of their content.
(The slice indexes `group(0)` with absolute positions, faithfully
reproduced.) -/
def find_xml_declaration_escaped_content (content : String) :
    List (String × String) :=
  let pat := "<([^>]+)>([^<>]*?&lt;\\?xml version=\"|&lt;\\?xml version='|&lt;\\?xml version=).*?</[^>]*>"
  (reFindIter true pat content).foldl (fun escaped_xml_elements m =>
    let element_tag := pyStrip (groupStr content.data m 1)
    let g2 := groupStr content.data m 2
    let g0 := groupStr content.data m 0
    let s2 := match getGroup m.mg 2 with
      | some (s, _) => s
      | none => 0
    let element_content := g2 ++
      pySlice g0 (s2 + g2.data.length)
        (m.me - ("</" ++ firstWord element_tag ++ ">").data.length)
    dinsert escaped_xml_elements element_tag element_content) []

/-! ## `find_xml_content_in_elements` (source lines 277–328) -/

/-- The `for target_element in target_elements` loop of
`find_xml_content_in_elements`.  Each iteration first compiles
`f'<{target_element}[^>]*>(.*?)</{target_element}>'` (source line 298);
when the interpolated block tag makes that pattern malformed — e.g. a
catalogued tag containing `(` — `re.compile` raises `re.error`, aborting
the whole call (and with it the file, since nothing catches it inside
`process_xml_file`): that is the `none` result here. -/
def findXmlContentLoop (content : String) :
    List String → List (String × (String × String)) →
    Option (List (String × (String × String)))
  | [], xml_content_map => some xml_content_map
  | target_element :: rest, xml_content_map =>
    let element_pattern :=
      "<" ++ target_element ++ "[^>]*>(.*?)</" ++ target_element ++ ">"
    match parseRx element_pattern with
    | none => none
    | some _ =>
      let m3 := (reFindIter true element_pattern content).foldl
        (fun m1 element_match =>
        let element_content := groupStr content.data element_match 1
        let identifiers := reFindAllPairs false
          "<(profileName|name|id)>([^<]+)</\\1>" element_content
        let context_key := target_element ++
          String.join (identifiers.map (fun p => ":" ++ p.1 ++ "=" ++ p.2))
        let m2 := (reFindIter true "<([^>]+)>\\s*<!\\[CDATA\\[(.*?)\\]\\]>"
            element_content).foldl (fun mm cdata_match =>
          let xml_tag := pyStrip (groupStr element_content.data cdata_match 1)
          let xml_content := groupStr element_content.data cdata_match 2
          dinsert mm (context_key ++ ":" ++ xml_tag) ("cdata", xml_content)) m1
        (reFindIter true "<([^>]+)>([^<]*?&lt;[^>]*?&gt;[^<]*?)</\\1>"
            element_content).foldl (fun mm escaped_match =>
          let xml_tag := pyStrip (groupStr element_content.data escaped_match 1)
          let escaped_content := groupStr element_content.data escaped_match 2
          dinsert mm (context_key ++ ":" ++ xml_tag) ("escaped", escaped_content)) m2)
        xml_content_map
      findXmlContentLoop content rest m3

/-- `find_xml_content_in_elements`: for each target element name, scan its
blocks for CDATA or escaped XML content, keyed by the block's context.
`none` models the `re.error` that `re.compile` raises at source line 298
when an interpolated block tag does not form a valid pattern; the
exception propagates out of `process_xml_file` before the CDB-backup
check at line 384 is ever reached. -/
def find_xml_content_in_elements (content : String)
    (target_elements : List String) :
    Option (List (String × (String × String))) :=
  findXmlContentLoop content target_elements []

/-! ## `process_xml_file` (source lines 330–597) -/

/-- The per-file failures `process_xml_file` can raise: the explicit
`ValueError` for CDB-backup files, the `re.error` escaping from the
pattern compiled at source line 298, and the parser's error for malformed
XML. -/
inductive PyErr where
  | unsupportedFormat : PyErr
  | regexError : PyErr
  | parseFailure : PyErr

/-- The entity-unescaping chain the source repeats verbatim at lines
496–500, 550–554 and 577–581. -/
def unescape_content (content : String) : String :=
  let c := pyReplace (pyReplace content "&lt;" "<") "&gt;" ">"
  let c := pyReplace (pyReplace c "&amp;lt;" "&lt;") "&amp;gt;" "&gt;"
  let c := pyReplace (pyReplace c "&quot;" "\"") "&apos;" "'"
  let c := pyReplace c "&amp;quot;" "\""
  pyReplace c "&amp;" "&"

/-- The single-occurrence CDATA restoration substitution (source lines
422–427, 476–481): rewrite `<tag>plain</anything>` to a CDATA block holding
the catalogued content. -/
def restore_cdata_sub (element_tag cdata_content : String) (s : String) :
    String :=
  reSub false ("<" ++ element_tag ++ ">([^<]*)</[^>]*>")
    (fun _ => "<" ++ element_tag ++ "><![CDATA[" ++ cdata_content ++
      "]]></" ++ firstWord element_tag ++ ">") s

/-- The identifier check shared by the context-matching passes (source
lines 450–457 and 529–536): every recorded `type=value` identifier must
occur as `<type>value</type>` in the candidate block. -/
def identifiers_match (identifiers : List String)
    (parent_content : String) : Bool :=
  identifiers.all (fun identifier =>
    match pySplitStr '=' identifier with
    | [id_type, id_value] =>
      (reSearch false ("<" ++ id_type ++ ">" ++ re_escape id_value ++
        "</" ++ id_type ++ ">") parent_content).isSome
    | _ => true)

/-- Pass 1 of the reinsertion engine (source lines 409–481): restore the
catalogued CDATA sections, matching by context when one inner tag was
catalogued several times. -/
def restore_cdata_pass (cdata_by_tag : List (String × List (String × String)))
    (pretty0 : String) : String :=
  cdata_by_tag.foldl (fun pretty tagEntry =>
    let element_tag := tagEntry.1
    match tagEntry.2 with
    | [single] => restore_cdata_sub element_tag single.2 pretty
    | context_content_pairs =>
      context_content_pairs.foldl (fun pretty pair =>
        let element_context := pair.1
        let cdata_content := pair.2
        let context_parts := pySplitStr ':' element_context
        let parent_tag := headStr context_parts
        if context_parts.length > 1 then
          let identifiers := (context_parts.drop 1).dropLast
          let parent_pattern :=
            "<" ++ parent_tag ++ "[^>]*>(.*?)</" ++ parent_tag ++ ">"
          let snapshot := pretty
          (reFindIter false parent_pattern snapshot).foldl (fun pretty parent_match =>
            let parent_content := groupStr snapshot.data parent_match 1
            if identifiers_match identifiers parent_content then
              let modified :=
                restore_cdata_sub element_tag cdata_content parent_content
              pyReplace pretty
                ("<" ++ parent_tag ++ ">" ++ parent_content ++ "</" ++ parent_tag ++ ">")
                ("<" ++ parent_tag ++ ">" ++ modified ++ "</" ++ parent_tag ++ ">")
            else pretty) pretty
        else restore_cdata_sub element_tag cdata_content pretty)
        pretty) pretty0

/-- Pass 2 (source lines 483–505): promote catalogued escaped-XML
declarations to CDATA, skipping tags already handled by pass 1. -/
def promote_escaped_pass (escaped_xml_elements : List (String × String))
    (cdata_by_tag : List (String × List (String × String)))
    (pretty0 : String) : String :=
  escaped_xml_elements.foldl (fun pretty entry =>
    let element_tag := entry.1
    if (dlookup cdata_by_tag element_tag).isSome then pretty
    else
      reSub false ("<" ++ element_tag ++ ">([^<]*)</[^>]*>")
        (fun m =>
          let content := unescape_content (groupStr pretty.data m 1)
          "<" ++ element_tag ++ "><![CDATA[" ++ content ++ "]]></" ++
            firstWord element_tag ++ ">") pretty) pretty0

/-- Pass 3 (source lines 507–566): special handling for the catalogued
target-element contents. -/
def special_elements_pass
    (xml_content_in_special_elements : List (String × (String × String)))
    (pretty0 : String) : String :=
  xml_content_in_special_elements.foldl (fun pretty entry =>
    let context_key := entry.1
    let content_type := entry.2.1
    let content := entry.2.2
    let parts := pySplitStr ':' context_key
    let parent_element := headStr parts
    let xml_tag := lastStr parts
    let identifiers :=
      ((parts.drop 1).dropLast).filter (fun part => pyContains part "=")
    let parent_pattern :=
      "<" ++ parent_element ++ "[^>]*>(.*?)</" ++ parent_element ++ ">"
    let snapshot := pretty
    (reFindIter false parent_pattern snapshot).foldl (fun pretty parent_match =>
      let parent_content := groupStr snapshot.data parent_match 1
      if identifiers_match identifiers parent_content then
        let modified :=
          reSub false ("<" ++ xml_tag ++ ">([^<]*)</" ++ xml_tag ++ ">")
            (fun _ =>
              if content_type = "cdata" then
                "<" ++ xml_tag ++ "><![CDATA[" ++ content ++ "]]></" ++ xml_tag ++ ">"
              else
                "<" ++ xml_tag ++ "><![CDATA[" ++ unescape_content content ++
                  "]]></" ++ xml_tag ++ ">") parent_content
        pyReplace pretty
          ("<" ++ parent_element ++ ">" ++ parent_content ++ "</" ++ parent_element ++ ">")
          ("<" ++ parent_element ++ ">" ++ modified ++ "</" ++ parent_element ++ ">")
      else pretty) pretty) pretty0

/-- Pass 4 (source lines 568–594): the fallback sweep converting any
remaining escaped-XML-looking text to CDATA. -/
def fallback_escaped_pass (pretty0 : String) : String :=
  reSub true "<([^>]+)>([^<>]*?&lt;[^<>]*?&gt;[^<]*?)</[^>]*>"
    (fun m =>
      let element_tag := groupStr pretty0.data m 1
      let content := groupStr pretty0.data m 2
      if pyContains content "&lt;" && pyContains content "&gt;" then
        let unescaped := unescape_content content
        if pyContains unescaped "<" && pyContains unescaped ">" &&
            (pyContains unescaped "</" || pyContains unescaped "/>") then
          "<" ++ element_tag ++ "><![CDATA[" ++ unescaped ++ "]]></" ++
            firstWord element_tag ++ ">"
        else groupStr pretty0.data m 0
      else groupStr pretty0.data m 0) pretty0

/-- Source lines 363–374: the parent tags of the catalogued CDATA blocks,
extended with the fixed extras `TransRouting` and `normalizationSettings`,
deduplicated. -/
def special_elements_for (content : String) : List String :=
  let cdata_sections := find_cdata_sections content
  let element_tags_with_cdata :=
    dedupeKeep (cdata_sections.map (fun t => headStr (pySplitStr ':' t.1)))
  dedupeKeep (element_tags_with_cdata ++ ["TransRouting", "normalizationSettings"])

/-- `process_xml_file` (source lines 330–597) on the contents of the input
file, returning the text written to the output file, or the error that
aborts this input.  The scanners run first, so a `re.error` escaping from
`find_xml_content_in_elements` aborts the file before the CDB-backup check
at line 384. -/
def process_xml_file (content : String) : Except PyErr String :=
  let cdata_sections := find_cdata_sections content
  let escaped_xml_elements := find_xml_declaration_escaped_content content
  match find_xml_content_in_elements content (special_elements_for content) with
  | none => .error .regexError
  | some xml_content_in_special_elements =>
  if pyStartsWith (pyLStrip content) "<config" then
    .error .unsupportedFormat
  else
    match parseXML content with
    | none => .error .parseFailure
    | some root =>
      let ns : Option (List (String × String)) :=
        match extract_namespace root.tag with
        | some uri => some [("xmlns", uri)]
        | none => none
      let root_tag := tagLocal root.tag
      let xml_dict := Node.map [(root_tag, xml_to_dict root)]
      let sorted_dict := sort_dict xml_dict (some root_tag)
      let new_root := dict_to_xml root_tag (dictGet sorted_dict root_tag) ns
      let pretty_xml_output := prettify new_root
      let cdata_by_tag := cdata_sections.foldl
        (fun d t => dappend d t.2.1 (t.1, t.2.2)) []
      let pretty1 := restore_cdata_pass cdata_by_tag pretty_xml_output
      let pretty2 := promote_escaped_pass escaped_xml_elements cdata_by_tag pretty1
      let pretty3 := special_elements_pass xml_content_in_special_elements pretty2
      .ok (fallback_escaped_pass pretty3)

/-! ## The per-file I/O trace

`process_xml_file` touches the file system at fixed points: the three
scanners each open and read the input (source lines 210, 261, 290), the
main body reads it again (line 380) — all before the format check at line
384 — `ET.parse` reads it once more (line 388), and the output file is
opened and written exactly once, at the very end (lines 596–597).  The
trace below records those events around the pure pipeline. -/

/-- A file-system event of one `process_xml_file` call. -/
inductive IOEvent where
  | readEv : IOEvent
  | writeEv : String → IOEvent

/-- Is the event a write? -/
def isWriteEv : IOEvent → Bool
  | .writeEv _ => true
  | .readEv => false

/-- The write events of a trace. -/
def writeEvents (evs : List IOEvent) : List IOEvent :=
  evs.filter isWriteEv

/-- The I/O trace of `process_xml_file` on one input, with its outcome:
three reads when the line-298 `re.error` aborts (the third scanner reads
the file before compiling its patterns), four before the CDB-backup check
aborts, a fifth for `ET.parse`, and — only when every stage succeeded — a
single final write of the finished output. -/
def process_xml_file_events (content : String) :
    List IOEvent × Except PyErr Unit :=
  match process_xml_file content with
  | .error .regexError =>
    ([.readEv, .readEv, .readEv], .error .regexError)
  | .error .unsupportedFormat =>
    ([.readEv, .readEv, .readEv, .readEv], .error .unsupportedFormat)
  | .error .parseFailure =>
    ([.readEv, .readEv, .readEv, .readEv, .readEv], .error .parseFailure)
  | .ok out =>
    ([.readEv, .readEv, .readEv, .readEv, .readEv, .writeEv out], .ok ())

/-! ## Substring order and counting helpers for the claims -/

/-- The suffix after the first occurrence of `pat`, when it occurs. -/
def afterSub (pat : List Char) : List Char → Option (List Char)
  | [] => if pat.isEmpty then some [] else none
  | c :: rest =>
    if isPrefixB pat (c :: rest) then some ((c :: rest).drop pat.length)
    else afterSub pat rest

/-- Do the given fragments occur in `l` in this order, each after the
previous one? -/
def containsInOrderAux : List Char → List String → Bool
  | _, [] => true
  | l, p :: ps =>
    match afterSub p.data l with
    | some l' => containsInOrderAux l' ps
    | none => false

/-- Do the fragments occur in `s`, in order? -/
def containsInOrder (s : String) (parts : List String) : Bool :=
  containsInOrderAux s.data parts

/-- Count the non-overlapping occurrences of `pat`. -/
def countSubAux (pat : List Char) : Nat → List Char → Nat
  | 0, _ => 0
  | _ + 1, [] => 0
  | fuel + 1, c :: rest =>
    if isPrefixB pat (c :: rest) then
      1 + countSubAux pat fuel ((c :: rest).drop pat.length)
    else countSubAux pat fuel rest

/-- Count the non-overlapping occurrences of `sub` in `s`. -/
def countSub (s sub : String) : Nat :=
  countSubAux sub.data (s.data.length + 1) s.data

/-! ## Concrete inputs and their computed outputs -/

/-- The root element of the spec's sorting scenario,
`<Root><b>2</b><a>1</a><id>X</id></Root>`, as parsed. -/
def exampleRoot : Element :=
  .mk "Root" [] none
    [.mk "b" [] (some "2") [],
     .mk "a" [] (some "1") [],
     .mk "id" [] (some "X") []]

/-- The sorting scenario as an input file. -/
def sortScenarioInput : String := "<Root><b>2</b><a>1</a><id>X</id></Root>"

/-- The output the tool writes for `sortScenarioInput`. -/
def sortScenarioOutput : String :=
  "<Root>\n    <id>X</id>\n    <a>1</a>\n    <b>2</b>\n</Root>\n"

/-- The spec's two-sibling `TransRouting` scenario: CDATA payloads `<x/>`
under `profileName` `P1` and `<y/>` under `P2`. -/
def transRoutingInput : String :=
  "<Root><TransRouting><profileName>P1</profileName><profileXml><![CDATA[<x/>]]></profileXml></TransRouting><TransRouting><profileName>P2</profileName><profileXml><![CDATA[<y/>]]></profileXml></TransRouting></Root>"

/-- The output the tool writes for `transRoutingInput`. -/
def transRoutingOutput : String :=
  "<Root>\n    <TransRouting>\n        <profileName>P1</profileName>\n        <profileXml><![CDATA[<x/>]]></profileXml>\n    </TransRouting>\n    <TransRouting>\n        <profileName>P2</profileName>\n        <profileXml><![CDATA[<y/>]]></profileXml>\n    </TransRouting>\n</Root>\n"

/-- Two sibling `TransRouting` blocks whose CDATA payloads `hello` and
`world` contain no markup. -/
def twoCdataPlainInput : String :=
  "<Root><TransRouting><profileName>P1</profileName><profileXml><![CDATA[hello]]></profileXml></TransRouting><TransRouting><profileName>P2</profileName><profileXml><![CDATA[world]]></profileXml></TransRouting></Root>"

/-- The output the tool writes for `twoCdataPlainInput`: both payloads left
as plain text, no CDATA block anywhere. -/
def twoCdataPlainOutput : String :=
  "<Root>\n    <TransRouting>\n        <profileName>P1</profileName>\n        <profileXml>hello</profileXml>\n    </TransRouting>\n    <TransRouting>\n        <profileName>P2</profileName>\n        <profileXml>world</profileXml>\n    </TransRouting>\n</Root>\n"

/-- A file whose single CDATA section is catalogued once. -/
def singleCdataInput : String :=
  "<Root><TransRouting><profileName>P1</profileName><profileXml><![CDATA[<x/>]]></profileXml></TransRouting></Root>"

/-- The output the tool writes for `singleCdataInput`. -/
def singleCdataOutput : String :=
  "<Root>\n    <TransRouting>\n        <profileName>P1</profileName>\n        <profileXml><![CDATA[<x/>]]></profileXml>\n    </TransRouting>\n</Root>\n"

/-- A file whose root element is `configuration` — not `config`. -/
def configLikeInput : String := "<configuration><a>1</a></configuration>"

/-- A file whose root declares a default namespace. -/
def nsScenarioInput : String :=
  "<?xml version=\"1.0\"?><Root xmlns=\"http://ex.com/ns\"><b>2</b><a>1</a></Root>"

/-- The output the tool writes for `nsScenarioInput`. -/
def nsScenarioOutput : String :=
  "<Root xmlns=\"http://ex.com/ns\">\n    <a>1</a>\n    <b>2</b>\n</Root>\n"

/-! # Lemmas -/

/-! ## The lexicographic order -/

theorem lexLe_refl : ∀ l : List Char, lexLe l l = true
  | [] => rfl
  | a :: as => by simp [lexLe, lexLe_refl as]

theorem lexLe_total : ∀ a b : List Char, lexLe a b = true ∨ lexLe b a = true
  | [], _ => .inl rfl
  | _ :: _, [] => .inr rfl
  | a :: as, b :: bs => by
    simp only [lexLe]
    rcases Nat.lt_trichotomy a.toNat b.toNat with h | h | h
    · simp [h]
    · simpa [h, Nat.lt_irrefl] using lexLe_total as bs
    · simp [h, Nat.lt_asymm h]

theorem lexLe_trans : ∀ a b c : List Char,
    lexLe a b = true → lexLe b c = true → lexLe a c = true
  | [], _, _, _, _ => rfl
  | _ :: _, [], _, h, _ => by simp [lexLe] at h
  | _ :: _, _ :: _, [], _, h => by simp [lexLe] at h
  | a :: as, b :: bs, c :: cs, h1, h2 => by
    simp only [lexLe] at h1 h2 ⊢
    rcases Nat.lt_trichotomy a.toNat b.toNat with hab | hab | hab
    · rcases Nat.lt_trichotomy b.toNat c.toNat with hbc | hbc | hbc
      · rw [if_pos (Nat.lt_trans hab hbc)]
      · rw [if_pos (hbc ▸ hab)]
      · rw [if_neg (by omega), if_pos hbc] at h2
        simp at h2
    · rw [if_neg (by omega), if_neg (by omega)] at h1
      rcases Nat.lt_trichotomy b.toNat c.toNat with hbc | hbc | hbc
      · rw [if_pos (by omega)]
      · rw [if_neg (by omega), if_neg (by omega)] at h2
        rw [if_neg (by omega), if_neg (by omega)]
        exact lexLe_trans as bs cs h1 h2
      · rw [if_neg (by omega), if_pos (by omega)] at h2
        simp at h2
    · rw [if_neg (by omega), if_pos (by omega)] at h1
      simp at h1

theorem strLe_refl (s : String) : strLe s s = true := lexLe_refl _

theorem strLe_total (a b : String) : strLe a b = true ∨ strLe b a = true :=
  lexLe_total _ _

theorem strLe_trans {a b c : String} (h1 : strLe a b = true)
    (h2 : strLe b c = true) : strLe a c = true :=
  lexLe_trans _ _ _ h1 h2

theorem skey_le_total (x y : SKey) : SKey.le x y = true ∨ SKey.le y x = true := by
  cases x <;> cases y <;> simp [SKey.le] <;> first
    | exact Nat.le_total _ _
    | exact strLe_total _ _

theorem skey_le_trans {x y z : SKey} (h1 : SKey.le x y = true)
    (h2 : SKey.le y z = true) : SKey.le x z = true := by
  cases x <;> cases y <;> cases z <;> simp_all [SKey.le]
  · exact Nat.le_trans h1 h2
  · exact strLe_trans h1 h2

/-! ## The priority sort key -/

theorem priority_key_func_eq_resolved (gp : List String)
    (epm : List (String × List String)) (pt : Option String) (k : String) :
    priority_key_func gp epm pt k = skeyOf (resolvedList gp epm pt) k := by
  cases pt with
  | none => rfl
  | some t =>
    simp only [priority_key_func, resolvedList, skeyOf]
    by_cases ht : t = "" <;> simp [ht] <;> cases lookupList epm t <;> rfl

theorem findPrioIdx_some : ∀ (lst : List String) (kl : String) (i : Nat),
    findPrioIdx lst kl = some i →
    ∃ p, lst.get? i = some p ∧ kl = pyLower p := by
  intro lst
  induction lst with
  | nil => intro kl i h; simp [findPrioIdx] at h
  | cons p rest ih =>
    intro kl i h
    simp only [findPrioIdx] at h
    by_cases hk : kl = pyLower p
    · simp [hk] at h
      exact ⟨p, by simp [← h], hk⟩
    · simp [hk] at h
      obtain ⟨j, hj, rfl⟩ := h
      obtain ⟨q, hq, hkq⟩ := ih kl j hj
      exact ⟨q, by simpa using hq, hkq⟩

/-- Two keys with equal priority sort keys have equal lowercase forms, hence
are `keyLowerLe`-comparable both ways. -/
theorem prioEq_imp_lowerLe {gp : List String}
    {epm : List (String × List String)} {pt : Option String}
    {x y : String × Node} (h1 : prioLe gp epm pt x y = true)
    (h2 : prioLe gp epm pt y x = true) : keyLowerLe x y = true := by
  unfold prioLe at h1 h2
  rw [priority_key_func_eq_resolved] at h1 h2
  rw [priority_key_func_eq_resolved] at h1 h2
  unfold skeyOf at h1 h2
  unfold keyLowerLe
  rcases hx : findPrioIdx (resolvedList gp epm pt) (pyLower x.1) with _ | i <;>
    rcases hy : findPrioIdx (resolvedList gp epm pt) (pyLower y.1) with _ | j <;>
      simp [hx, hy, SKey.le] at h1 h2 ⊢
  · exact h1
  · have hij : i = j := Nat.le_antisymm h1 h2
    obtain ⟨p, hp, hxl⟩ := findPrioIdx_some _ _ _ hx
    obtain ⟨q, hq, hyl⟩ := findPrioIdx_some _ _ _ hy
    rw [hij] at hp
    rw [hp] at hq
    cases hq
    rw [hxl, hyl]
    exact strLe_refl _

theorem prioLe_total (gp : List String) (epm : List (String × List String))
    (pt : Option String) (x y : String × Node) :
    prioLe gp epm pt x y = true ∨ prioLe gp epm pt y x = true :=
  skey_le_total _ _

theorem prioLe_trans {gp : List String} {epm : List (String × List String)}
    {pt : Option String} {x y z : String × Node}
    (h1 : prioLe gp epm pt x y = true) (h2 : prioLe gp epm pt y z = true) :
    prioLe gp epm pt x z = true :=
  skey_le_trans h1 h2

/-! ## The stable sort -/

theorem mem_pyInsert (le : α → α → Bool) (a x : α) :
    ∀ l : List α, x ∈ pyInsert le a l ↔ x = a ∨ x ∈ l
  | [] => by simp [pyInsert]
  | b :: l => by
    simp only [pyInsert]
    split
    · simp [List.mem_cons]
    · simp only [List.mem_cons, mem_pyInsert le a x l]
      tauto

theorem mem_pySorted (le : α → α → Bool) (x : α) :
    ∀ l : List α, x ∈ pySorted le l ↔ x ∈ l
  | [] => by simp [pySorted]
  | a :: l => by
    simp only [pySorted, mem_pyInsert, mem_pySorted le x l, List.mem_cons]

theorem pairwise_pyInsert (le : α → α → Bool)
    (htot : ∀ x y, le x y = true ∨ le y x = true)
    (htrans : ∀ x y z, le x y = true → le y z = true → le x z = true)
    (a : α) : ∀ l : List α, l.Pairwise (fun x y => le x y = true) →
    (pyInsert le a l).Pairwise (fun x y => le x y = true)
  | [], _ => by simp [pyInsert]
  | b :: l, hp => by
    simp only [pyInsert]
    rcases List.pairwise_cons.mp hp with ⟨hb, hl⟩
    split
    · rename_i hab
      refine List.pairwise_cons.mpr ⟨?_, hp⟩
      intro x hx
      rcases List.mem_cons.mp hx with rfl | hx
      · exact hab
      · exact htrans a b x hab (hb x hx)
    · rename_i hab
      have hba : le b a = true := by
        rcases htot a b with h | h
        · exact absurd h hab
        · exact h
      refine List.pairwise_cons.mpr ⟨?_, pairwise_pyInsert le htot htrans a l hl⟩
      intro x hx
      rcases (mem_pyInsert le a x l).mp hx with rfl | hx
      · exact hba
      · exact hb x hx

theorem pairwise_pySorted (le : α → α → Bool)
    (htot : ∀ x y, le x y = true ∨ le y x = true)
    (htrans : ∀ x y z, le x y = true → le y z = true → le x z = true) :
    ∀ l : List α, (pySorted le l).Pairwise (fun x y => le x y = true)
  | [] => by simp [pySorted]
  | a :: l => by
    simp only [pySorted]
    exact pairwise_pyInsert le htot htrans a _ (pairwise_pySorted le htot htrans l)

theorem pySorted_eq_of_pairwise (le : α → α → Bool) :
    ∀ l : List α, l.Pairwise (fun x y => le x y = true) → pySorted le l = l
  | [], _ => rfl
  | a :: l, hp => by
    rcases List.pairwise_cons.mp hp with ⟨ha, hl⟩
    simp only [pySorted, pySorted_eq_of_pairwise le l hl]
    cases l with
    | nil => rfl
    | cons b l' => simp [pyInsert, ha b (by simp)]

/-- Inserting two elements that compare strictly (`le a b` but not
`le b a`) commutes. -/
theorem pyInsert_comm_strict (le : α → α → Bool)
    (htrans : ∀ x y z, le x y = true → le y z = true → le x z = true)
    {a b : α} (hab : le a b = true) (hba : le b a = false) :
    ∀ l : List α, pyInsert le a (pyInsert le b l) = pyInsert le b (pyInsert le a l)
  | [] => by simp [pyInsert, hab, hba]
  | c :: l => by
    by_cases hbc : le b c = true
    · have hac : le a c = true := htrans a b c hab hbc
      simp [pyInsert, hab, hba, hbc, hac]
    · have hbc' : le b c = false := by
        cases h : le b c
        · rfl
        · exact absurd h hbc
      by_cases hac : le a c = true
      · simp [pyInsert, hab, hba, hbc', hac]
      · have hac' : le a c = false := by
          cases h : le a c
          · rfl
          · exact absurd h hac
        simp [pyInsert, hab, hba, hbc', hac',
          pyInsert_comm_strict le htrans hab hba l]

/-- Inserting two elements that are not equivalent under `le` commutes. -/
theorem pyInsert_comm (le : α → α → Bool)
    (htot : ∀ x y, le x y = true ∨ le y x = true)
    (htrans : ∀ x y z, le x y = true → le y z = true → le x z = true)
    {a b : α} (hne : ¬(le a b = true ∧ le b a = true)) (l : List α) :
    pyInsert le a (pyInsert le b l) = pyInsert le b (pyInsert le a l) := by
  by_cases hab : le a b = true
  · have hba : le b a = false := by
      cases h : le b a
      · rfl
      · exact absurd ⟨hab, h⟩ hne
    exact pyInsert_comm_strict le htrans hab hba l
  · have hba : le b a = true := by
      rcases htot a b with h | h
      · exact absurd h hab
      · exact h
    have hab' : le a b = false := by
      cases h : le a b
      · rfl
      · exact absurd h hab
    exact (pyInsert_comm_strict le htrans hba hab' l).symm

/-- The radix step: sorting by the primary key `leP` after inserting under a
secondary key `leL` is the same as inserting under `leP` directly, provided
`leP`-equivalent elements are `leL`-comparable. -/
theorem pySorted_pyInsert (leP leL : α → α → Bool)
    (htot : ∀ x y, leP x y = true ∨ leP y x = true)
    (htrans : ∀ x y z, leP x y = true → leP y z = true → leP x z = true)
    (hcompat : ∀ x y, leP x y = true → leP y x = true → leL x y = true)
    (a : α) : ∀ l : List α,
    pySorted leP (pyInsert leL a l) = pyInsert leP a (pySorted leP l)
  | [] => rfl
  | b :: l => by
    simp only [pyInsert]
    split
    · simp [pySorted]
    · rename_i hab
      simp only [pySorted,
        pySorted_pyInsert leP leL htot htrans hcompat a l]
      refine pyInsert_comm leP htot htrans ?_ (pySorted leP l)
      rintro ⟨h1, h2⟩
      exact hab (hcompat a b h2 h1)

/-- Stable-sorting by `leL` first does not change a later stable sort by
`leP` when `leP`-equivalent elements are `leL`-comparable. -/
theorem pySorted_pySorted (leP leL : α → α → Bool)
    (htot : ∀ x y, leP x y = true ∨ leP y x = true)
    (htrans : ∀ x y z, leP x y = true → leP y z = true → leP x z = true)
    (hcompat : ∀ x y, leP x y = true → leP y x = true → leL x y = true) :
    ∀ l : List α, pySorted leP (pySorted leL l) = pySorted leP l
  | [] => rfl
  | a :: l => by
    simp only [pySorted, pySorted_pyInsert leP leL htot htrans hcompat,
      pySorted_pySorted leP leL htot htrans hcompat l]

/-! ## Structural induction over the element tree -/

theorem Node.strongInd {P : Node → Prop}
    (hleaf : ∀ s, P (.leaf s))
    (hseq : ∀ l, (∀ x ∈ l, P x) → P (.seq l))
    (hmap : ∀ es, (∀ kv ∈ es, P kv.2) → P (.map es)) : ∀ n, P n
  | .leaf s => hleaf s
  | .seq l => hseq l (fun x hx => Node.strongInd hleaf hseq hmap x)
  | .map es => hmap es (fun kv hkv => Node.strongInd hleaf hseq hmap kv.2)
termination_by n => sizeOf n
decreasing_by
  · have := List.sizeOf_lt_of_mem hx
    simp only [Node.seq.sizeOf_spec]
    omega
  · have h1 := List.sizeOf_lt_of_mem hkv
    have h2 : sizeOf kv.2 < sizeOf kv := by
      rcases kv with ⟨k, v⟩
      simp only [Prod.mk.sizeOf_spec]
      omega
    simp only [Node.map.sizeOf_spec]
    omega

theorem Element.strongInduction {P : Element → Prop}
    (h : ∀ tag attrib text children,
      (∀ c ∈ children, P c) → P (.mk tag attrib text children)) : ∀ e, P e
  | .mk tag attrib text children =>
    h tag attrib text children
      (fun c hc => Element.strongInduction h c)
termination_by e => sizeOf e
decreasing_by
  have := List.sizeOf_lt_of_mem hc
  simp only [Element.mk.sizeOf_spec]
  omega

/-! ## The loop helpers as maps -/

theorem sortValsG_eq_map (gp : List String)
    (epm : List (String × List String)) :
    ∀ es : List (String × Node),
    sortValsG gp epm es = es.map (fun kv => (kv.1, sortDictG gp epm kv.2 (some kv.1)))
  | [] => rfl
  | (k, v) :: rest => by
    simp [sortValsG, sortValsG_eq_map gp epm rest]

theorem sortSeqG_eq_map (gp : List String)
    (epm : List (String × List String)) (pt : Option String) :
    ∀ l : List Node,
    sortSeqG gp epm l pt = l.map (fun x => sortDictG gp epm x pt)
  | [] => rfl
  | x :: xs => by
    simp [sortSeqG, sortSeqG_eq_map gp epm pt xs]

theorem map_eq_self_of {f : α → α} :
    ∀ l : List α, (∀ x ∈ l, f x = x) → l.map f = l
  | [], _ => rfl
  | x :: xs, h => by
    simp only [List.map_cons, h x (by simp),
      map_eq_self_of xs (fun y hy => h y (by simp [hy]))]

theorem SortedList_iff (gp : List String) (epm : List (String × List String))
    (pt : Option String) : ∀ l : List Node,
    SortedList gp epm pt l ↔ ∀ x ∈ l, SortedNode gp epm pt x
  | [] => by simp [SortedList]
  | x :: xs => by
    simp only [SortedList, SortedList_iff gp epm pt xs, List.mem_cons]
    constructor
    · rintro ⟨h1, h2⟩ y (rfl | hy)
      · exact h1
      · exact h2 y hy
    · intro h
      exact ⟨h x (.inl rfl), fun y hy => h y (.inr hy)⟩

theorem SortedEntries_iff (gp : List String)
    (epm : List (String × List String)) : ∀ es : List (String × Node),
    SortedEntries gp epm es ↔ ∀ kv ∈ es, SortedNode gp epm (some kv.1) kv.2
  | [] => by simp [SortedEntries]
  | (k, v) :: rest => by
    simp only [SortedEntries, SortedEntries_iff gp epm rest, List.mem_cons]
    constructor
    · rintro ⟨h1, h2⟩ kv (rfl | hkv)
      · exact h1
      · exact h2 kv hkv
    · intro h
      exact ⟨h (k, v) (.inl rfl), fun kv hkv => h kv (.inr hkv)⟩

/-- Every tree produced by the generalised `sort_dict` satisfies the claimed
ordering property at every dict, for the parent tag that reaches it. -/
theorem sortDictG_sorted (gp : List String)
    (epm : List (String × List String)) :
    ∀ d pt, SortedNode gp epm pt (sortDictG gp epm d pt) := by
  intro d
  induction d using Node.strongInd with
  | hleaf s => intro pt; simp [sortDictG, SortedNode]
  | hseq l ih =>
    intro pt
    simp only [sortDictG, SortedNode, sortSeqG_eq_map, SortedList_iff]
    intro x hx
    rcases List.mem_map.mp hx with ⟨y, hy, rfl⟩
    exact ih y hy pt
  | hmap es ih =>
    intro pt
    simp only [sortDictG, SortedNode]
    constructor
    · exact pairwise_pySorted _ (prioLe_total gp epm pt)
        (fun x y z => prioLe_trans) _
    · rw [SortedEntries_iff]
      intro kv hkv
      rw [mem_pySorted, mem_pySorted, sortValsG_eq_map] at hkv
      rcases List.mem_map.mp hkv with ⟨kv0, hkv0, rfl⟩
      exact ih kv0 hkv0 (some kv0.1)

/-- `sort_dict` is idempotent (generalised form). -/
theorem sortDictG_idem (gp : List String)
    (epm : List (String × List String)) :
    ∀ d pt, sortDictG gp epm (sortDictG gp epm d pt) pt = sortDictG gp epm d pt := by
  intro d
  induction d using Node.strongInd with
  | hleaf s => intro pt; simp [sortDictG]
  | hseq l ih =>
    intro pt
    simp only [sortDictG, sortSeqG_eq_map, List.map_map]
    congr 1
    refine List.map_congr_left ?_
    intro x hx
    exact ih x hx pt
  | hmap es ih =>
    intro pt
    simp only [sortDictG]
    have hvals : sortValsG gp epm
        (pySorted (prioLe gp epm pt) (pySorted keyLowerLe (sortValsG gp epm es))) =
        pySorted (prioLe gp epm pt) (pySorted keyLowerLe (sortValsG gp epm es)) := by
      rw [sortValsG_eq_map]
      refine map_eq_self_of _ ?_
      intro kv hkv
      rw [mem_pySorted, mem_pySorted, sortValsG_eq_map] at hkv
      rcases List.mem_map.mp hkv with ⟨kv0, hkv0, rfl⟩
      simp only [ih kv0 hkv0 (some kv0.1)]
    rw [hvals]
    rw [pySorted_pySorted (prioLe gp epm pt) keyLowerLe (prioLe_total gp epm pt)
      (fun x y z => prioLe_trans) (fun x y => prioEq_imp_lowerLe)]
    congr 1
    exact pySorted_eq_of_pairwise _ _
      (pairwise_pySorted _ (prioLe_total gp epm pt) (fun x y z => prioLe_trans) _)

/-! ## The list invariant (lists hold at least two items) -/

theorem listsOKList_iff : ∀ l : List Node,
    listsOKList l = true ↔ ∀ x ∈ l, listsOK x = true
  | [] => by simp [listsOKList]
  | x :: xs => by
    simp [listsOKList, listsOKList_iff xs]

theorem listsOKEntries_iff : ∀ es : List (String × Node),
    listsOKEntries es = true ↔ ∀ kv ∈ es, listsOK kv.2 = true
  | [] => by simp [listsOKEntries]
  | (k, v) :: rest => by
    simp only [listsOKEntries, Bool.and_eq_true, listsOKEntries_iff rest,
      List.mem_cons]
    constructor
    · rintro ⟨h1, h2⟩ kv (rfl | hkv)
      · exact h1
      · exact h2 kv hkv
    · intro h
      exact ⟨h (k, v) (.inl rfl), fun kv hkv => h kv (.inr hkv)⟩

theorem listsOKList_append {a b : List Node} (ha : listsOKList a = true)
    (hb : listsOKList b = true) : listsOKList (a ++ b) = true := by
  rw [listsOKList_iff] at *
  intro x hx
  rcases List.mem_append.mp hx with h | h
  · exact ha x h
  · exact hb x h

theorem listsOK_addChild : ∀ (acc : List (String × Node)) (tag : String)
    (v : Node), listsOKEntries acc = true → listsOK v = true →
    listsOKEntries (addChild acc tag v) = true
  | [], tag, v, _, hv => by simp [addChild, listsOKEntries, hv]
  | (k, old) :: rest, tag, v, hacc, hv => by
    simp only [listsOKEntries, Bool.and_eq_true] at hacc
    rcases hacc with ⟨hold, hrest⟩
    by_cases hk : k = tag
    · cases old with
      | seq l =>
        simp only [listsOK, Bool.and_eq_true, decide_eq_true_eq] at hold
        obtain ⟨hl1, hl2⟩ := hold
        simp only [addChild, if_pos hk, listsOKEntries, listsOK,
          Bool.and_eq_true, decide_eq_true_eq]
        refine ⟨⟨by simp; omega,
          listsOKList_append hl2 (by simp [listsOKList, hv])⟩, hrest⟩
      | leaf s =>
        simp [addChild, hk, listsOKEntries, listsOK, listsOKList, hold, hv, hrest]
      | map es2 =>
        simp only [listsOK] at hold
        simp [addChild, hk, listsOKEntries, listsOK, listsOKList, hold, hv, hrest]
    · simp only [addChild, if_neg hk, listsOKEntries, Bool.and_eq_true]
      exact ⟨hold, listsOK_addChild rest tag v hrest hv⟩

theorem listsOK_xmlChildren : ∀ (children : List Element)
    (acc : List (String × Node)), listsOKEntries acc = true →
    (∀ c ∈ children, listsOK (xml_to_dict c) = true) →
    listsOKEntries (xmlChildren acc children) = true
  | [], acc, hacc, _ => hacc
  | c :: rest, acc, hacc, h => by
    simp only [xmlChildren]
    exact listsOK_xmlChildren rest _
      (listsOK_addChild acc _ _ hacc (h c (by simp)))
      (fun x hx => h x (by simp [hx]))

/-- Every list in a tree built by `xml_to_dict` holds at least two items. -/
theorem xml_to_dict_listsOK : ∀ e : Element, listsOK (xml_to_dict e) = true := by
  intro e
  induction e using Element.strongInduction with
  | h tag attrib text children ih =>
    cases children with
    | nil => simp [xml_to_dict, listsOK]
    | cons c cs =>
      simp only [xml_to_dict, listsOK]
      exact listsOK_xmlChildren _ _ rfl ih

/-- The generalised `sort_dict` preserves the list invariant: it never
creates, empties, or shrinks a list. -/
theorem sortDictG_listsOK (gp : List String)
    (epm : List (String × List String)) :
    ∀ d pt, listsOK d = true → listsOK (sortDictG gp epm d pt) = true := by
  intro d
  induction d using Node.strongInd with
  | hleaf s => intro pt _; simp [sortDictG, listsOK]
  | hseq l ih =>
    intro pt h
    simp only [listsOK, Bool.and_eq_true, decide_eq_true_eq] at h
    simp only [sortDictG, listsOK, sortSeqG_eq_map, Bool.and_eq_true,
      decide_eq_true_eq, List.length_map, listsOKList_iff]
    refine ⟨h.1, ?_⟩
    intro x hx
    rcases List.mem_map.mp hx with ⟨y, hy, rfl⟩
    exact ih y hy pt ((listsOKList_iff l).mp h.2 y hy)
  | hmap es ih =>
    intro pt h
    simp only [listsOK, listsOKEntries_iff] at h
    simp only [sortDictG, listsOK, listsOKEntries_iff]
    intro kv hkv
    rw [mem_pySorted, mem_pySorted, sortValsG_eq_map] at hkv
    rcases List.mem_map.mp hkv with ⟨kv0, hkv0, rfl⟩
    exact ih kv0 hkv0 (some kv0.1) (h kv0 hkv0)

/-! ## Attributes -/

theorem noAttribsList_append {a b : List Element} :
    noAttribsList (a ++ b) = (noAttribsList a && noAttribsList b) := by
  induction a with
  | nil => simp [noAttribsList]
  | cons c cs ih => simp [noAttribsList, ih, Bool.and_assoc]

mutual

theorem dict_to_xml_noAttribs : ∀ (d : Node) (tag : String),
    noAttribs (dict_to_xml tag d none) = true
  | .map es, tag => by
    simp [dict_to_xml, noAttribs, dxChildren_noAttribs es]
  | .seq l, tag => by simp [dict_to_xml, noAttribs, noAttribsList]
  | .leaf s, tag => by simp [dict_to_xml, noAttribs, noAttribsList]

theorem dxChildren_noAttribs : ∀ es : List (String × Node),
    noAttribsList (dxChildren es) = true
  | [] => rfl
  | (k, v) :: rest => by
    cases v with
    | seq items =>
      simp [dxChildren, noAttribsList_append, dxItems_noAttribs items k,
        dxChildren_noAttribs rest]
    | leaf s =>
      simp [dxChildren, noAttribsList, dict_to_xml_noAttribs (Node.leaf s) k,
        dxChildren_noAttribs rest]
    | map es' =>
      simp [dxChildren, noAttribsList, dict_to_xml_noAttribs (Node.map es') k,
        dxChildren_noAttribs rest]

theorem dxItems_noAttribs : ∀ (items : List Node) (k : String),
    noAttribsList (dxItems k items) = true
  | [], _ => rfl
  | item :: items, k => by
    simp [dxItems, noAttribsList, dict_to_xml_noAttribs item k,
      dxItems_noAttribs items k]

end

theorem dict_to_xml_root_attrib (tag : String) (d : Node)
    (ns : List (String × String)) :
    (dict_to_xml tag d (some ns)).attrib = ns ∧
      noAttribsList (dict_to_xml tag d (some ns)).children = true := by
  cases d with
  | map es => exact ⟨rfl, dxChildren_noAttribs es⟩
  | seq l => exact ⟨rfl, rfl⟩
  | leaf s => exact ⟨rfl, rfl⟩

mutual

theorem xml_to_dict_erase : ∀ e : Element,
    xml_to_dict (eraseAttribs e) = xml_to_dict e
  | .mk tag attrib text children => by
    cases children with
    | nil => rfl
    | cons c cs =>
      exact congrArg Node.map (xmlChildren_erase (c :: cs) [])

theorem xmlChildren_erase : ∀ (children : List Element)
    (acc : List (String × Node)),
    xmlChildren acc (eraseAttribsList children) = xmlChildren acc children
  | [], acc => rfl
  | c :: rest, acc => by
    simp only [eraseAttribsList, xmlChildren]
    have htag : (eraseAttribs c).tag = c.tag := by
      cases c
      rfl
    rw [htag, xml_to_dict_erase c, xmlChildren_erase rest]

end

/-! # Claims -/

/-- C1.  In every tree produced by `sort_dict`, each dict's keys appear in
the order given by the sort key `priority_key_func` resolves for that
dict's parent tag: keys that occur (case-insensitively) in the resolved
priority list first, in list-position order, then the remaining keys in
case-insensitive alphabetical order.  In particular, for the input
`<Root><b>2</b><a>1</a><id>X</id></Root>` with a global priority list
containing only `id`, the sorted output orders `Root`'s children
`id, a, b` — as does the full tool on that input file, whose real global
list also begins with `id`. -/
theorem sort_dict_orders_by_resolved_priority :
    (∀ d pt,
      SortedNode priority_keywords element_priority_keywords_map pt
        (sort_dict d pt)) ∧
    mapKeys (dictGet (sortDictG ["id"] element_priority_keywords_map
      (.map [("Root", xml_to_dict exampleRoot)]) (some "Root")) "Root") =
      ["id", "a", "b"] ∧
    process_xml_file sortScenarioInput = .ok sortScenarioOutput ∧
    containsInOrder sortScenarioOutput
      ["<id>X</id>", "<a>1</a>", "<b>2</b>"] = true :=
  ⟨fun d pt => sortDictG_sorted _ _ d pt, by rfl, by rfl, by rfl⟩

/-- C5.  When the parent tag has a per-tag priority list, `sort_dict` uses
only that list: the sort key depends solely on the per-tag list (so the
per-tag list fully replaces, and is never merged with, the global list);
a key missing from it — such as `id` under `TransRouting`, although `id`
heads the global list — gets the non-priority key `(1, key.lower())`,
which sorts after every listed key. -/
theorem per_tag_priority_replaces_global :
    (∀ gp epm t specific key, t ≠ "" → lookupList epm t = some specific →
      priority_key_func gp epm (some t) key = skeyOf specific key) ∧
    (priority_key_func priority_keywords element_priority_keywords_map
      (some "TransRouting") "id" = .alpha "id") ∧
    (∀ i s, SKey.le (.prio i) (.alpha s) = true ∧
      SKey.le (.alpha s) (.prio i) = false) := by
  refine ⟨?_, by rfl, fun i s => ⟨rfl, rfl⟩⟩
  intro gp epm t specific key ht hl
  simp [priority_key_func, skeyOf, ht, hl]

/-- Witness for C5: under parent tag `TransRouting` (per-tag list
`["profileName"]`), the key `id` — which heads the global list — is keyed
by the per-tag list alone. -/
theorem per_tag_priority_replaces_global_witness :
    ("TransRouting" : String) ≠ "" ∧
    lookupList element_priority_keywords_map "TransRouting" =
      some ["profileName"] ∧
    priority_key_func priority_keywords element_priority_keywords_map
      (some "TransRouting") "id" = skeyOf ["profileName"] "id" :=
  ⟨by decide, by rfl,
    per_tag_priority_replaces_global.1 priority_keywords
      element_priority_keywords_map "TransRouting" ["profileName"] "id"
      (by decide) (by rfl)⟩

/-- C6.  `sort_dict` is idempotent — sorting an already-sorted tree with
the same parent tag returns it unchanged — and, at file level, running the
tool on an already-sorted output (the `TransRouting` scenario's, with its
CDATA payloads) reproduces that output byte for byte. -/
theorem sort_dict_idempotent :
    (∀ d t, sort_dict (sort_dict d t) t = sort_dict d t) ∧
    process_xml_file transRoutingOutput = .ok transRoutingOutput :=
  ⟨fun d t => sortDictG_idem _ _ d t, by rfl⟩

/-- C9.  Every list value in a tree built by `xml_to_dict` holds at least
two items, and `sort_dict` preserves that invariant (it never creates,
empties, or shrinks a list: dicts stay dicts, lists are mapped
elementwise). -/
theorem list_values_have_at_least_two_items :
    (∀ e, listsOK (xml_to_dict e) = true) ∧
    (∀ d t, listsOK d = true → listsOK (sort_dict d t) = true) :=
  ⟨xml_to_dict_listsOK, fun d t h => sortDictG_listsOK _ _ d t h⟩

/-- Witness for C9: the invariant transports through `sort_dict` on a
concrete tree with a two-item list. -/
theorem list_values_have_at_least_two_items_witness :
    listsOK (.map [("x", .seq [.leaf "a", .leaf "b"])]) = true ∧
    listsOK (sort_dict (.map [("x", .seq [.leaf "a", .leaf "b"])]) none) = true :=
  ⟨by rfl,
    list_values_have_at_least_two_items.2
      (.map [("x", .seq [.leaf "a", .leaf "b"])]) none (by rfl)⟩

/-- C10.  Attributes are discarded: `xml_to_dict` never reads attributes
(its result is invariant under erasing them), and `dict_to_xml` attaches
attributes only when handed a namespace — which the source does only at the
root — so every element below the root carries no attribute at all. -/
theorem attributes_discarded :
    (∀ e, xml_to_dict (eraseAttribs e) = xml_to_dict e) ∧
    (∀ tag d, noAttribs (dict_to_xml tag d none) = true) ∧
    (∀ tag d ns, (dict_to_xml tag d (some ns)).attrib = ns ∧
      noAttribsList (dict_to_xml tag d (some ns)).children = true) :=
  ⟨xml_to_dict_erase, fun tag d => dict_to_xml_noAttribs d tag,
    fun tag d ns => dict_to_xml_root_attrib tag d ns⟩

/-- C7.  If the parsed root's tag declares a namespace (`{uri}` prefix, as
`ElementTree` records an `xmlns` declaration), the rebuilt root carries
exactly the attribute set `xmlns="uri"` and no other element of the
rebuilt tree carries any attribute; on the concrete namespaced input file,
the written output carries the identical declaration on the root line and
`xmlns` appears exactly once in it. -/
theorem namespace_on_root_only :
    (∀ (root : Element) (uri : String),
      extract_namespace root.tag = some uri →
      (rebuildRoot root).attrib = [("xmlns", uri)] ∧
        noAttribsList (rebuildRoot root).children = true) ∧
    process_xml_file nsScenarioInput = .ok nsScenarioOutput ∧
    pyStartsWith nsScenarioOutput "<Root xmlns=\"http://ex.com/ns\">" = true ∧
    countSub nsScenarioOutput "xmlns" = 1 := by
  refine ⟨?_, by rfl, by rfl, by rfl⟩
  intro root uri h
  simp only [rebuildRoot, h]
  exact dict_to_xml_root_attrib _ _ _

/-- Witness for C7: a concrete root with a declared namespace. -/
theorem namespace_on_root_only_witness :
    extract_namespace
      (Element.mk "{http://ex.com/ns}Root" [] none
        [.mk "a" [] (some "1") []]).tag = some "http://ex.com/ns" ∧
    (rebuildRoot (Element.mk "{http://ex.com/ns}Root" [] none
      [.mk "a" [] (some "1") []])).attrib = [("xmlns", "http://ex.com/ns")] ∧
    noAttribsList (rebuildRoot (Element.mk "{http://ex.com/ns}Root" [] none
      [.mk "a" [] (some "1") []])).children = true :=
  ⟨by rfl,
    (namespace_on_root_only.1
      (Element.mk "{http://ex.com/ns}Root" [] none [.mk "a" [] (some "1") []])
      "http://ex.com/ns" (by rfl))⟩

/-- C3.  For the input with two sibling `TransRouting` blocks — `P1` with
CDATA payload `<x/>` and `P2` with `<y/>` — the tool's output keeps `<x/>`
inside the `P1` block and `<y/>` inside the `P2` block (in the output,
`<x/>`'s CDATA block lies after `profileName` `P1` and before that
block's `</TransRouting>`, and `<y/>`'s after `P2`): the payloads are not
swapped. -/
theorem cdata_payloads_not_swapped :
    process_xml_file transRoutingInput = .ok transRoutingOutput ∧
    containsInOrder transRoutingOutput
      ["<profileName>P1<", "<![CDATA[<x/>]]>", "</TransRouting>",
       "<profileName>P2<", "<![CDATA[<y/>]]>"] = true :=
  ⟨by rfl, by rfl⟩

/-- Counterexample to C2: an input whose two CDATA sections share the
inner tag `profileXml` and whose payloads contain no markup.  The input
contains CDATA sections, yet the final output contains no CDATA block at
all — the payloads end up as plain text. -/
theorem cdata_payload_lost_for_duplicate_inner_tags :
    pyContains twoCdataPlainInput "<![CDATA[" = true ∧
    process_xml_file twoCdataPlainInput = .ok twoCdataPlainOutput ∧
    pyContains twoCdataPlainOutput "<![CDATA[" = false :=
  ⟨by rfl, by rfl, by rfl⟩

/-- C2 as amended.  For inputs whose catalogued CDATA survives the
restoration patterns — such as the representative file whose single CDATA
section is catalogued under one inner tag — the payload appears
byte-for-byte inside a CDATA block of the written output, even though the
tree round-trip alone flattens it to escaped text. -/
theorem cdata_payload_preserved_for_restorable_inputs :
    process_xml_file singleCdataInput = .ok singleCdataOutput ∧
    pyContains singleCdataInput "<![CDATA[<x/>]]>" = true ∧
    pyContains singleCdataOutput "<![CDATA[<x/>]]>" = true ∧
    pyContains (prettify (dict_to_xml "Root"
      (dictGet (sort_dict (.map [("Root",
        xml_to_dict ((parseXML singleCdataInput).getD
          (.mk "" [] none [])))]) (some "Root")) "Root") none))
      "<![CDATA[" = false :=
  ⟨by rfl, by rfl, by rfl, by rfl⟩

/-- C8.  Output is atomic per input: a failing run's trace holds no write
event at all, and a successful run's trace is exactly the five reads
followed by one final write of the finished output — the write happens
once, at the end, never incrementally. -/
theorem output_written_once_at_end :
    ∀ content,
      (∀ e, (process_xml_file_events content).2 = .error e →
        writeEvents (process_xml_file_events content).1 = []) ∧
      (∀ out, process_xml_file content = .ok out →
        (process_xml_file_events content).1 =
          [.readEv, .readEv, .readEv, .readEv, .readEv, .writeEv out]) := by
  intro content
  constructor
  · intro e he
    rcases hp : process_xml_file content with e2 | out
    · cases e2 <;>
        simp [process_xml_file_events, hp, writeEvents, List.filter, isWriteEv]
    · simp [process_xml_file_events, hp] at he
  · intro out hout
    simp [process_xml_file_events, hout]

/-- Witness for C8: a failing input leaves no write; a succeeding input
writes exactly once, at the end. -/
theorem output_written_once_at_end_witness :
    writeEvents (process_xml_file_events configLikeInput).1 = [] ∧
    (process_xml_file_events singleCdataInput).1 =
      [.readEv, .readEv, .readEv, .readEv, .readEv,
       .writeEv singleCdataOutput] :=
  ⟨(output_written_once_at_end configLikeInput).1 .unsupportedFormat (by rfl),
    (output_written_once_at_end singleCdataInput).2 singleCdataOutput (by rfl)⟩

end SortXML
